import Mathlib

/-!
Verification development for the Chatwithpdf repository (two Python source
files: `pdf-text-extractor.py`, the standalone script, and
`android/app/src/main/python/mymodule.py`, the embedded variant).

The Python functions are shallowly embedded as executable Lean functions.
Strings are modelled as `String`/`List Char`; the CPython behaviours the
code relies on (single-pass non-overlapping `str.replace`, the specific
`re.sub`/`re.findall` patterns used, `str.strip`, latin-1 character
classification) are translated explicitly below.  External effects
(filesystem, PyPDF2, glob, OCR and multilingual libraries) are modelled as
explicit environment records passed to the entry points.
-/

namespace ChatPdf

/-! ## Generic list and string helpers (CPython string primitives) -/

/-- Whitespace characters of CPython `str.isspace` / `re` `\s` restricted to
the latin-1 range (the only code points the modelled code can produce). -/
def pyIsSpace (c : Char) : Bool :=
  c = ' ' || c = '\t' || c = '\n' || c = '\x0d' || c = '\x0b' || c = '\x0c' ||
  c = '\x1c' || c = '\x1d' || c = '\x1e' || c = '\x1f' ||
  c = '\x85' || c = '\xa0'

/-- ASCII lowercase letter, the character class `[a-z]` of the regexes. -/
def isLowerAZ (c : Char) : Bool := 'a' ≤ c && c ≤ 'z'

/-- ASCII uppercase letter. -/
def isUpperAZ (c : Char) : Bool := 'A' ≤ c && c ≤ 'Z'

/-- ASCII digit. -/
def isDigit09 (c : Char) : Bool := '0' ≤ c && c ≤ '9'

/-- CPython `str.isalpha` restricted to latin-1. -/
def pyIsAlpha (c : Char) : Bool :=
  isLowerAZ c || isUpperAZ c ||
  (0xc0 ≤ c.toNat && c.toNat ≤ 0xff && c.toNat ≠ 0xd7 && c.toNat ≠ 0xf7) ||
  c.toNat = 0xaa || c.toNat = 0xb5 || c.toNat = 0xba

/-- CPython `str.isupper` (single char) restricted to latin-1. -/
def pyIsUpper (c : Char) : Bool :=
  isUpperAZ c || (0xc0 ≤ c.toNat && c.toNat ≤ 0xde && c.toNat ≠ 0xd7)

/-- CPython `str.isalnum` restricted to latin-1. -/
def pyIsAlnum (c : Char) : Bool :=
  pyIsAlpha c || isDigit09 c ||
  c.toNat = 0xb2 || c.toNat = 0xb3 || c.toNat = 0xb9 ||
  c.toNat = 0xbc || c.toNat = 0xbd || c.toNat = 0xbe

/-- CPython `str.isprintable` restricted to latin-1. -/
def pyIsPrintable (c : Char) : Bool :=
  (0x20 ≤ c.toNat && c.toNat < 0x7f) ||
  (0xa1 ≤ c.toNat && c.toNat ≤ 0xff && c.toNat ≠ 0xad)

/-- Word character of the regex `\b` boundary (`\w`): alphanumeric or
underscore. -/
def isWordChar (c : Char) : Bool := pyIsAlnum c || c = '_'

/-- Does `l` start with `pat`? (list-level `startswith`). -/
def startsWithL {α : Type} [DecidableEq α] : List α → List α → Bool
  | [], _ => true
  | _ :: _, [] => false
  | a :: as, b :: bs => a = b && startsWithL as bs

/-- Does `l` contain `pat` as a contiguous run? (Python `in` on strings). -/
def containsL {α : Type} [DecidableEq α] (pat : List α) : List α → Bool
  | [] => startsWithL pat []
  | b :: bs => startsWithL pat (b :: bs) || containsL pat bs

/-- Python `str.lstrip()` on a character list. -/
def lstripL (l : List Char) : List Char := l.dropWhile pyIsSpace

/-- Python `str.rstrip()` on a character list, implemented so that the
result is a prefix of the input (convenient for the lemmas below). -/
def rstripL : List Char → List Char
  | [] => []
  | c :: rest =>
    if rstripL rest = [] ∧ pyIsSpace c then [] else c :: rstripL rest

/-- Python `str.strip()` on a character list. -/
def pyStripL (l : List Char) : List Char := rstripL (lstripL l)

/-- Python `str.strip()` on strings. -/
def pyStrip (s : String) : String := String.mk (pyStripL s.toList)

/-! ## `post_process_extracted_text` (pdf-text-extractor.py, lines 188-240)

The Python function is a pipeline of `str.replace` calls, `re.sub` calls
and one final `str.strip`.  Each stage is translated to a recursive
function on `List Char` that reproduces the left-to-right, non-overlapping
scan of CPython's `str.replace` and `re.sub`. -/

/-- `cleaned.replace('  ', ' ')`: single left-to-right non-overlapping
pass replacing each double space by one space. -/
def collapseSp : List Char → List Char
  | [] => []
  | [c] => [c]
  | c :: c2 :: rest =>
    if c = ' ' ∧ c2 = ' ' then ' ' :: collapseSp rest
    else c :: collapseSp (c2 :: rest)

/-- `cleaned.replace(' \n', '\n')`. -/
def replSpNl : List Char → List Char
  | [] => []
  | [c] => [c]
  | c :: c2 :: rest =>
    if c = ' ' ∧ c2 = '\n' then '\n' :: replSpNl rest
    else c :: replSpNl (c2 :: rest)

/-- `cleaned.replace('\n ', '\n')`. -/
def replNlSp : List Char → List Char
  | [] => []
  | [c] => [c]
  | c :: c2 :: rest =>
    if c = '\n' ∧ c2 = ' ' then '\n' :: replNlSp rest
    else c :: replNlSp (c2 :: rest)

/-- Matcher for the tail `-\s*\n\s*([a-z])` of the pattern
`([a-z])-\s*\n\s*([a-z])`: succeeds exactly when a hyphen is followed by a
whitespace run containing a newline whose first non-whitespace successor
is a lowercase letter.  Returns that letter and the rest of the input. -/
def hyphMatch : List Char → Option (Char × List Char)
  | [] => none
  | c :: rest2 =>
    if c = '-' && (rest2.takeWhile pyIsSpace).any (· = '\n') then
      match rest2.dropWhile pyIsSpace with
      | d :: rest3 => if isLowerAZ d then some (d, rest3) else none
      | [] => none
    else none

/-- Matcher for the tail `\s*\n\s*([a-z])` of the patterns
`([a-z])\s*\n\s*([a-z])` and `([a-z,])\s*\n\s*([a-z])`. -/
def brokenMatch (l : List Char) : Option (Char × List Char) :=
  if (l.takeWhile pyIsSpace).any (· = '\n') then
    match l.dropWhile pyIsSpace with
    | d :: rest3 => if isLowerAZ d then some (d, rest3) else none
    | [] => none
  else none

theorem hyphMatch_length {l : List Char} {d : Char} {r : List Char}
    (h : hyphMatch l = some (d, r)) : r.length < l.length := by
  cases l with
  | nil => simp [hyphMatch] at h
  | cons c rest2 =>
    have hsub := (List.dropWhile_sublist (l := rest2) pyIsSpace).length_le
    simp only [hyphMatch] at h
    split at h
    · cases hdw : rest2.dropWhile pyIsSpace with
      | nil => rw [hdw] at h; simp at h
      | cons d' rest3 =>
        rw [hdw] at h hsub
        simp only at h
        split at h
        · simp only [Option.some.injEq, Prod.mk.injEq] at h
          obtain ⟨h1, h2⟩ := h
          subst h2
          simp only [List.length_cons] at hsub ⊢
          omega
        · cases h
    · cases h

theorem brokenMatch_length {l : List Char} {d : Char} {r : List Char}
    (h : brokenMatch l = some (d, r)) : r.length < l.length := by
  have hsub := (List.dropWhile_sublist (l := l) pyIsSpace).length_le
  simp only [brokenMatch] at h
  split at h
  · cases hdw : l.dropWhile pyIsSpace with
    | nil => rw [hdw] at h; simp at h
    | cons d' rest3 =>
      rw [hdw] at h hsub
      simp only at h
      split at h
      · simp only [Option.some.injEq, Prod.mk.injEq] at h
        obtain ⟨h1, h2⟩ := h
        subst h2
        simp only [List.length_cons] at hsub
        omega
      · cases h
  · cases h

/-- `re.sub(r'([a-z])-\s*\n\s*([a-z])', r'\1\2', cleaned)`. -/
def subHyphen : List Char → List Char
  | [] => []
  | c :: rest =>
    if isLowerAZ c then
      match h : hyphMatch rest with
      | some p => c :: p.1 :: subHyphen p.2
      | none => c :: subHyphen rest
    else c :: subHyphen rest
termination_by l => l.length
decreasing_by
  · have := hyphMatch_length h; simp only [List.length_cons]; omega
  · simp only [List.length_cons]; omega
  · simp only [List.length_cons]; omega

/-- `re.sub(r'([a-z])\s*\n\s*([a-z])', r'\1\2', cleaned)`. -/
def subBroken : List Char → List Char
  | [] => []
  | c :: rest =>
    if isLowerAZ c then
      match h : brokenMatch rest with
      | some p => c :: p.1 :: subBroken p.2
      | none => c :: subBroken rest
    else c :: subBroken rest
termination_by l => l.length
decreasing_by
  · have := brokenMatch_length h; simp only [List.length_cons]; omega
  · simp only [List.length_cons]; omega
  · simp only [List.length_cons]; omega

/-- `re.sub(r'([a-z,])\s*\n\s*([a-z])', r'\1 \2', cleaned)`. -/
def subSentence : List Char → List Char
  | [] => []
  | c :: rest =>
    if isLowerAZ c || c = ',' then
      match h : brokenMatch rest with
      | some p => c :: ' ' :: p.1 :: subSentence p.2
      | none => c :: subSentence rest
    else c :: subSentence rest
termination_by l => l.length
decreasing_by
  · have := brokenMatch_length h; simp only [List.length_cons]; omega
  · simp only [List.length_cons]; omega
  · simp only [List.length_cons]; omega

/-- `re.sub(r'\n{3,}', '\n\n', cleaned)`: a maximal run of three or more
newlines is replaced by exactly two. -/
def collapseNLs : List Char → List Char
  | [] => []
  | c :: rest =>
    if c = '\n' then
      if 2 ≤ (rest.takeWhile (· = '\n')).length then
        '\n' :: '\n' :: collapseNLs (rest.dropWhile (· = '\n'))
      else c :: (rest.takeWhile (· = '\n') ++ collapseNLs (rest.dropWhile (· = '\n')))
    else c :: collapseNLs rest
termination_by l => l.length
decreasing_by
  all_goals simp only [List.length_cons]
  · have := (List.dropWhile_sublist (l := rest) (· = '\n')).length_le; omega
  · have := (List.dropWhile_sublist (l := rest) (· = '\n')).length_le; omega
  · omega

/-- Word boundary `\b` to the left of a two-letter word: the previous
original character (if any) must not be a word character. -/
def boundaryBefore : Option Char → Bool
  | none => true
  | some c => !isWordChar c

/-- Word boundary `\b` to the right: the next character (if any) must not
be a word character. -/
def boundaryAfter : List Char → Bool
  | [] => true
  | c :: _ => !isWordChar c

/-- `re.sub(r'\b' + wrong + r'\b', correct, cleaned)` for a two-character
`wrong` made of word characters.  `prev` is the character of the original
string immediately before the current scan position. -/
def subWord2 (x y r : Char) : Option Char → List Char → List Char
  | _, [] => []
  | _, [a] => [a]
  | prev, a :: b :: rest =>
    if a = x && b = y && boundaryBefore prev && boundaryAfter rest then
      r :: subWord2 x y r (some y) rest
    else a :: subWord2 x y r (some a) (b :: rest)

/-- The literal six-character string `\brn\b` that the Python code tests
for with `pattern in cleaned` (a plain substring test, not a regex
search). -/
def litBRN : List Char := ['\\', 'b', 'r', 'n', '\\', 'b']

/-- The literal six-character string `\bvv\b`. -/
def litBVV : List Char := ['\\', 'b', 'v', 'v', '\\', 'b']

/-- Does the tail after a candidate first letter complete a whole-word
two-letter match: the next character equals `y` and a word boundary
follows it? -/
def tailMatch (y : Char) : List Char → Bool
  | [] => false
  | b :: rest2 => b = y && boundaryAfter rest2

/-- Is there a whole-word occurrence of the two-letter word `x y`
somewhere in the list, when `prev` is the character immediately before the
current scan position?  (`re.search(r'\b' + wrong + r'\b', cleaned)` for a
two-character `wrong` made of word characters.) -/
def hasMatch (x y : Char) : Option Char → List Char → Bool
  | _, [] => false
  | prev, a :: rest =>
    (a = x && boundaryBefore prev && tailMatch y rest) || hasMatch x y (some a) rest

/-- `post_process_extracted_text` (pdf-text-extractor.py lines 188-240).
The `'0'` and `'1'` entries of `ocr_fixes` are skipped by the
`wrong in ['rn', 'vv']` guard and therefore do not appear.  For the
`'rn'`/`'vv'` entries, the Python guard `pattern in cleaned` tests whether
the literal text `\brn\b` (resp. `\bvv\b`) occurs as a substring of the
text; only then is the regex substitution executed. -/
def post_process_extracted_text (text : String) : String :=
  if text = "" then text
  else
    let c0 := text.toList
    let c1 := collapseSp c0
    let c2 := replSpNl c1
    let c3 := replNlSp c2
    let c4 := subHyphen c3
    let c5 := subBroken c4
    let c6 := subSentence c5
    let c7 := collapseNLs c6
    let c8 := if containsL litBRN c7 then subWord2 'r' 'n' 'm' none c7 else c7
    let c9 := if containsL litBVV c8 then subWord2 'v' 'v' 'w' none c8 else c8
    String.mk (pyStripL c9)

/-- The two guarded digraph substitutions of the `ocr_fixes` loop
(pdf-text-extractor.py lines 224-238), as one function on character
lists. -/
def ocrFixes (l : List Char) : List Char :=
  let c8 := if containsL litBRN l then subWord2 'r' 'n' 'm' none l else l
  if containsL litBVV c8 then subWord2 'v' 'v' 'w' none c8 else c8

/-! ## `is_text_garbled` (pdf-text-extractor.py, lines 97-125) -/

/-- The punctuation set `'.,;:!?()-'` of the meaningful-character count. -/
def basicPunct : List Char := ['.', ',', ';', ':', '!', '?', '(', ')', '-']

/-- A character counted as meaningful by `is_text_garbled`. -/
def meaningfulChar (c : Char) : Bool :=
  pyIsAlnum c || pyIsSpace c || basicPunct.contains c

/-- The uppercase letters scanned for five-fold repetition. -/
def upperLetters : List Char :=
  ['A','B','C','D','E','F','G','H','I','J','K','L','M',
   'N','O','P','Q','R','S','T','U','V','W','X','Y','Z']

/-- `is_text_garbled` (pdf-text-extractor.py lines 97-125).  Floating
point threshold comparisons (`< 0.7`, `> len*0.3`, `> len*0.5`) are
modelled as the exact rational comparisons obtained by
cross-multiplication. -/
def is_text_garbled (text : String) : Bool :=
  if text = "" || (pyStripL text.toList).length < 10 then true
  else
    let l := text.toList
    let meaningful := (l.filter meaningfulChar).length
    let total := l.length
    if total = 0 then true
    else
      let lowRatio := meaningful * 10 < total * 7
      let excessiveSpaces :=
        containsL [' ', ' ', ' '] l || (l.filter (· = ' ')).length * 10 > total * 3
      let randomCaps := (l.filter pyIsUpper).length * 2 > total
      let repeatedChars := upperLetters.any (fun c => containsL [c, c, c, c, c] l)
      lowRatio || excessiveSpaces || randomCaps || repeatedChars

/-- The garbled-text condition exactly as the claim words it (trimmed
length, meaningful ratio, space density, uppercase density, five-fold
repetition) — without the three-consecutive-spaces test that the code
additionally performs. -/
def claimGarbledCond (text : String) : Bool :=
  let l := text.toList
  (pyStripL l).length < 10 ||
  (l.filter meaningfulChar).length * 10 < l.length * 7 ||
  (l.filter (· = ' ')).length * 10 > l.length * 3 ||
  (l.filter pyIsUpper).length * 2 > l.length ||
  upperLetters.any (fun c => containsL [c, c, c, c, c] l)

/-! ## JSON result model

Both entry points build Python dicts and serialise them with `json.dumps`.
The dict values are modelled as a two-level JSON value: a document is an
association list of fields; a field is an atom or a nested object of
atoms (the `metadata` dict). -/

/-- Atomic JSON values appearing in the result dicts. -/
inductive JAtom where
  | js : String → JAtom
  | jn : Nat → JAtom
  | jb : Bool → JAtom
  | jss : List String → JAtom
deriving DecidableEq

/-- A field of the top-level result dict. -/
inductive JField where
  | atom : JAtom → JField
  | obj : List (String × JAtom) → JField
deriving DecidableEq

/-- A result dict. -/
def JDoc : Type := List (String × JField)

instance : DecidableEq JDoc := by unfold JDoc; infer_instance

/-- Does the result dict contain the given key? -/
def hasKey (d : JDoc) (k : String) : Bool := d.any (fun kv => kv.1 = k)

/-- Look up a top-level field. -/
def getField : JDoc → String → Option JField
  | [], _ => none
  | kv :: rest, k => if kv.1 = k then some kv.2 else getField rest k

/-- Look up a key inside the `metadata` object of a result dict. -/
def getMeta (d : JDoc) (k : String) : Option JAtom :=
  match getField d "metadata" with
  | some (JField.obj m) =>
    match m.find? (fun kv => kv.1 = k) with
    | some kv => some kv.2
    | none => none
  | _ => none

/-! ## Embedded variant: `extract_pdf_text` (mymodule.py, lines 16-221)

The runtime environment (filesystem, PyPDF2 availability and behaviour,
glob results) is modelled as an explicit record.  `extract_pdf_text`
returns the JSON value that the Python code passes to `json.dumps`. -/

deriving instance DecidableEq for Except

/-- Behaviour of `PyPDF2.PdfReader` on one file: the per-page outcomes of
`page.extract_text()` (each may raise, caught per page), followed by an
optional exception raised by the reader construction or the page
iteration itself (after the listed pages).  A reader that raises at
construction is `⟨[], some msg⟩`. -/
structure PyReader where
  pageResults : List (Except String String)
  abortMsg : Option String
deriving DecidableEq

/-- Environment of the embedded variant. -/
structure Env where
  pypdf2Available : Bool
  files : List (String × List Nat)
  readers : List (String × PyReader)
  globMatches : List (String × List String)

/-- Association-list lookup used for all environment tables. -/
def lookupA {α : Type} : List (String × α) → String → Option α
  | [], _ => none
  | kv :: rest, k => if kv.1 = k then some kv.2 else lookupA rest k

/-- `os.path.exists` against the modelled filesystem. -/
def osPathExists (env : Env) (p : String) : Bool := (lookupA env.files p).isSome

/-- Byte content of a file (`open(path, 'rb').read()`). -/
def contentFor (env : Env) (p : String) : List Nat := (lookupA env.files p).getD []

/-- `PyPDF2.PdfReader` behaviour for a file. -/
def readerFor (env : Env) (p : String) : PyReader := (lookupA env.readers p).getD ⟨[], none⟩

/-- `glob.glob(pattern, recursive=True)` result (a raising glob call is
absorbed by the per-pattern `try`/`except` and behaves like `[]`). -/
def globFor (env : Env) (pat : String) : List String := (lookupA env.globMatches pat).getD []

/-- `os.path.basename`: the part after the last `'/'`. -/
def basename (p : String) : String :=
  String.mk (p.toList.foldl (fun acc c => if c = '/' then [] else acc ++ [c]) [])

/-- The fixed Android candidate list (mymodule.py lines 47-55). -/
def possiblePaths (p : String) : List String :=
  [p,
   "/android_asset/" ++ basename p,
   "/data/data/com.chatwithpdf/assets/" ++ basename p,
   "/data/data/com.chatwithpdf/files/" ++ basename p,
   "/storage/emulated/0/Download/" ++ basename p,
   "/sdcard/Download/" ++ basename p,
   basename p]

/-- The glob search patterns (mymodule.py lines 71-76). -/
def globPatterns (p : String) : List String :=
  ["/**/" ++ basename p,
   "/data/**/" ++ basename p,
   "/storage/**/" ++ basename p,
   "/android_asset/**/" ++ basename p]

/-- Probe candidate paths in order; returns the first existing path and
the list of candidates actually tested. -/
def probeCands (env : Env) : List String → Option String × List String
  | [] => (none, [])
  | q :: rest =>
    if osPathExists env q then (some q, [q])
    else
      let r := probeCands env rest
      (r.1, q :: r.2)

/-- Probe glob patterns in order; the first pattern with matches wins and
its first match is used. -/
def probeGlob (env : Env) : List String → Option String × List String
  | [] => (none, [])
  | pat :: rest =>
    match globFor env pat with
    | m :: _ => (some m, [pat])
    | [] =>
      let r := probeGlob env rest
      (r.1, pat :: r.2)

/-- The path resolver (mymodule.py lines 42-105): if the nominal path
exists it is used directly; otherwise the candidate list is probed, then
the glob patterns.  Returns the resolved path (if any) and the probes
performed. -/
def resolvePath (env : Env) (p : String) : Option String × List String :=
  if osPathExists env p then (some p, [])
  else
    let c := probeCands env (possiblePaths p)
    match c.1 with
    | some q => (some q, c.2)
    | none =>
      let g := probeGlob env (globPatterns p)
      (g.1, c.2 ++ g.2)

/-- ASCII apostrophe, built from its code point (used by the Python list
repr in the not-found error message). -/
def sqChar : Char := Char.ofNat 39

/-- Python `repr` of a list of strings, as interpolated by the f-string
`f'... Tried paths: {possible_paths}'`. -/
def pyListRepr (l : List String) : String :=
  "[" ++ String.intercalate ", " (l.map (fun s => String.singleton sqChar ++ s ++ String.singleton sqChar)) ++ "]"

/-- `b'%PDF-'` as byte values. -/
def pdfSig : List Nat := [0x25, 0x50, 0x44, 0x46, 0x2d]

/-- `content.startswith(b'%PDF-')`. -/
def startsWithPDF (content : List Nat) : Bool := startsWithL pdfSig content

/-- One fragment of `re.findall(r'\((.*?)\)', content_str)`: the
characters up to the first `')'`, failing when a newline or the end of
input intervenes (`.` does not match `'\n'`). -/
def scanFrag : List Char → Option (List Char × List Char)
  | [] => none
  | c :: rest =>
    if c = ')' then some ([], rest)
    else if c = '\n' then none
    else
      match scanFrag rest with
      | some fr => some (c :: fr.1, fr.2)
      | none => none

theorem scanFrag_length {l f : List Char} {r : List Char}
    (h : scanFrag l = some (f, r)) : r.length < l.length := by
  induction l generalizing f r with
  | nil => simp [scanFrag] at h
  | cons c rest ih =>
    simp only [scanFrag] at h
    split at h
    · simp only [Option.some.injEq, Prod.mk.injEq] at h
      obtain ⟨_, h2⟩ := h
      subst h2
      simp
    · split at h
      · cases h
      · cases hs : scanFrag rest with
        | none => rw [hs] at h; cases h
        | some fr =>
          rw [hs] at h
          simp only [Option.some.injEq, Prod.mk.injEq] at h
          obtain ⟨_, h2⟩ := h
          subst h2
          have := ih hs
          simp only [List.length_cons]
          omega

/-- `re.findall(r'\((.*?)\)', content_str)`: captured groups of the
leftmost non-overlapping matches. -/
def parenFrags : List Char → List (List Char)
  | [] => []
  | c :: rest =>
    if c = '(' then
      match h : scanFrag rest with
      | some fr => fr.1 :: parenFrags fr.2
      | none => parenFrags rest
    else parenFrags rest
termination_by l => l.length
decreasing_by
  · have := scanFrag_length h; simp only [List.length_cons]; omega
  · simp only [List.length_cons]; omega
  · simp only [List.length_cons]; omega

/-- Python `content_str.count(sub)` (non-overlapping substring count). -/
def countOcc (pat : List Char) : List Char → Nat
  | [] => 0
  | c :: rest =>
    if h : 0 < pat.length ∧ startsWithL pat (c :: rest) then
      1 + countOcc pat (rest.drop (pat.length - 1))
    else countOcc pat rest
termination_by l => l.length
decreasing_by
  · have : (rest.drop (pat.length - 1)).length ≤ rest.length := by
      simp [List.length_drop]
    simp only [List.length_cons]; omega
  · simp only [List.length_cons]; omega

/-- `'/Type/Page'` as characters. -/
def typePageL : List Char := ['/', 'T', 'y', 'p', 'e', '/', 'P', 'a', 'g', 'e']

/-- Text accumulated over the PyPDF2 pages (mymodule.py lines 125-133):
per-page failures are skipped, non-empty page text is appended with a
double newline. -/
def pagesConcat (rs : List (Except String String)) : String :=
  rs.foldl (fun acc r =>
    match r with
    | Except.ok t => if t ≠ "" then acc ++ t ++ "\n\n" else acc
    | Except.error _ => acc) ""

/-- Outcome of the PyPDF2 phase (mymodule.py lines 117-139):
`(text, method, page_count, available-after, err)`. -/
def pypdf2Phase (r : PyReader) : String × String × Nat × Bool × String :=
  match r.abortMsg with
  | none => (pagesConcat r.pageResults, "pypdf2", r.pageResults.length, true, "")
  | some m =>
    (pagesConcat r.pageResults, "none", r.pageResults.length, false,
     "\n\n\n\n; PyPDF2 error: " ++ m)

/-- The raw byte-scan fallback (mymodule.py lines 141-182), including the
`except` branch that turns the invalid-signature exception into an
informational text: `(text, method, page_count)`. -/
def byteScanPhase (content : List Nat) : String × String × Nat :=
  if startsWithPDF content then
    let cs := content.map Char.ofNat
    let frags := parenFrags cs
    let readable := frags.filterMap (fun f =>
      if 3 < f.length && f.any pyIsAlpha then
        let clean := f.filter (fun c => pyIsPrintable c || pyIsSpace c)
        if pyStripL clean ≠ [] then some (String.mk (pyStripL clean)) else none
      else none)
    let pageCount := if countOcc typePageL cs = 0 then 1 else countOcc typePageL cs
    if readable ≠ [] then
      (String.intercalate "\n" (readable.take 50), "basic_text_extraction", pageCount)
    else
      ("PDF file detected (size: " ++ toString content.length ++
       " bytes). Text extraction requires PyPDF2 library.", "file_info_only", pageCount)
  else
    ("PDF file exists but could not be processed: File does not appear to be a valid PDF",
     "failed", 0)

/-- Outcome of the located branch of `extract_pdf_text` before the result
dict is built. -/
structure Located where
  filename : String
  fileSize : Nat
  text : String
  err : String
  method : String
  pageCount : Nat
  actualPath : String
  avail : Bool

/-- The body of `extract_pdf_text` once the file has been located at
`path` (mymodule.py lines 107-201). -/
def locatedRun (env : Env) (path : String) : Located :=
  let fileSize := (contentFor env path).length
  let p1 :=
    if env.pypdf2Available then pypdf2Phase (readerFor env path)
    else ("", "none", 0, false, "")
  let t1 := p1.1
  let m1 := p1.2.1
  let pc1 := p1.2.2.1
  let avail1 := p1.2.2.2.1
  let err1 := p1.2.2.2.2
  let p2 :=
    if !avail1 && t1 = "" then byteScanPhase (contentFor env path)
    else (t1, m1, pc1)
  ⟨basename path, fileSize, pyStrip p2.1, err1, p2.2.1, p2.2.2, path, avail1⟩

/-- Result of the body of `extract_pdf_text` inside the outer
`try`/`except`. -/
inductive InnerOut where
  | notFound (tried : List String)
  | located (l : Located)

/-- The body of `extract_pdf_text` inside the outer `try` (an exception
raised there is a `.error`).  `os.path.exists(None)` raises `TypeError`,
which the outer handler converts into the failure result. -/
def innerBody (env : Env) (p? : Option String) : Except String InnerOut :=
  match p? with
  | none => Except.error "stat: path should be string, bytes, os.PathLike or integer, not NoneType"
  | some p0 =>
    match (resolvePath env p0).1 with
    | none => Except.ok (InnerOut.notFound (possiblePaths p0))
    | some path => Except.ok (InnerOut.located (locatedRun env path))

/-- `os.path.basename(pdf_path) if pdf_path else 'unknown'`. -/
def fallbackName : Option String → String
  | none => "unknown"
  | some p => if p = "" then "unknown" else basename p

/-- The not-found result dict (mymodule.py lines 90-103). -/
def notFoundDoc (p? : Option String) (lang : String) (tried : List String) : JDoc :=
  [("success", JField.atom (JAtom.jb false)),
   ("error", JField.atom (JAtom.js ("PDF file not found. Tried paths: " ++ pyListRepr tried))),
   ("text", JField.atom (JAtom.js "")),
   ("metadata", JField.obj
     [("filename", JAtom.js (fallbackName p?)),
      ("file_size", JAtom.jn 0),
      ("language", JAtom.js lang),
      ("extraction_method", JAtom.js "failed"),
      ("text_length", JAtom.jn 0),
      ("page_count", JAtom.jn 0),
      ("attempted_paths", JAtom.jss tried)])]

/-- The success result dict (mymodule.py lines 187-201). -/
def okDoc (lang : String) (l : Located) : JDoc :=
  [("success", JField.atom (JAtom.jb true)),
   ("text", JField.atom (JAtom.js l.text)),
   ("error", JField.atom (JAtom.js l.err)),
   ("metadata", JField.obj
     [("filename", JAtom.js l.filename),
      ("file_size", JAtom.jn l.fileSize),
      ("language", JAtom.js lang),
      ("extraction_method", JAtom.js l.method),
      ("text_length", JAtom.jn l.text.length),
      ("page_count", JAtom.jn l.pageCount),
      ("actual_path", JAtom.js l.actualPath),
      ("pypdf2_available", JAtom.jb l.avail)])]

/-- The exception result dict of the outer handler (mymodule.py lines
206-221). -/
def errDoc (p? : Option String) (lang e : String) : JDoc :=
  [("success", JField.atom (JAtom.jb false)),
   ("error", JField.atom (JAtom.js e)),
   ("text", JField.atom (JAtom.js "")),
   ("metadata", JField.obj
     [("filename", JAtom.js (fallbackName p?)),
      ("file_size", JAtom.jn 0),
      ("language", JAtom.js lang),
      ("extraction_method", JAtom.js "failed"),
      ("text_length", JAtom.jn 0),
      ("page_count", JAtom.jn 0)])]

/-- `extract_pdf_text` (mymodule.py lines 16-221): the JSON value handed
to `json.dumps`. -/
def extract_pdf_text (env : Env) (p? : Option String) (lang : String) : JDoc :=
  match innerBody env p? with
  | Except.error e => errDoc p? lang e
  | Except.ok (InnerOut.notFound tried) => notFoundDoc p? lang tried
  | Except.ok (InnerOut.located l) => okDoc lang l

/-! ## Standalone variant: `extract_text_from_pdf` and `main`
(pdf-text-extractor.py, lines 242-399)

The three extraction strategies call external libraries; their outcomes
are modelled as per-path entries of the environment.  The cascade logic,
the quality gates and the result construction are translated from the
source. -/

/-- One element of the list a multilingual-library `extract()` may
return: a dict with a `'text'` key, a plain string, or anything else
(skipped by the flattening loop). -/
inductive MLItem where
  | pageDict : String → MLItem
  | pageStr : String → MLItem
  | pageOther : MLItem
deriving DecidableEq

/-- The value returned by `pdf2text.extract()`: a string, a list of
items, or a non-list non-string object (whose `str()` is stored). -/
inductive MLContent where
  | asStr : String → MLContent
  | asList : List MLItem → MLContent
  | asOther : String → MLContent
deriving DecidableEq

/-- Flattening of the multilingual extraction content
(pdf-text-extractor.py lines 291-301). -/
def flattenML : MLContent → String
  | MLContent.asStr s => s
  | MLContent.asList items =>
    pyStrip (items.foldl (fun acc it =>
      match it with
      | MLItem.pageDict t => acc ++ t ++ "\n\n"
      | MLItem.pageStr t => acc ++ t ++ "\n\n"
      | MLItem.pageOther => acc) "")
  | MLContent.asOther s => s

/-- Environment of the standalone script: existing files with their
`os.stat` sizes, and the outcome of each strategy per path (`.error` is a
raised exception, including an unavailable library). -/
structure SEnv where
  files : List (String × Nat)
  ocrResults : List (String × Except String String)
  mlResults : List (String × Except String MLContent)
  pyResults : List (String × Except String (List String))

/-- `os.path.exists` for the standalone script. -/
def osExistsS (env : SEnv) (p : String) : Bool := (lookupA env.files p).isSome

/-- `os.stat(path).st_size`. -/
def sizeFor (env : SEnv) (p : String) : Nat := (lookupA env.files p).getD 0

/-- Outcome of `extract_with_enhanced_ocr(pdf_path, language)`. -/
def ocrFor (env : SEnv) (p : String) : Except String String :=
  (lookupA env.ocrResults p).getD (Except.error "ocr unavailable")

/-- Outcome of the multilingual `pdf2text.extract()` call chain. -/
def mlFor (env : SEnv) (p : String) : Except String MLContent :=
  (lookupA env.mlResults p).getD (Except.error "multilingual unavailable")

/-- Outcome of the PyPDF2 strategy: the page texts, or the exception
raised anywhere inside the strategy (including mid-iteration — the
per-page texts are then discarded because `basic_text` is local). -/
def pyFor (env : SEnv) (p : String) : Except String (List String) :=
  (lookupA env.pyResults p).getD (Except.error "pypdf2 unavailable")

/-- Method 1 (pdf-text-extractor.py lines 263-270): `(text, method)`
after the enhanced-OCR attempt. -/
def stage1 (env : SEnv) (p : String) : String × String :=
  match ocrFor env p with
  | Except.ok t => (t, "enhanced_ocr")
  | Except.error _ => ("", "none")

/-- The gate in front of Method 2 (line 273):
`not extracted_text or len(extracted_text.strip()) < 100`. -/
def gate2 (t : String) : Bool := t = "" || (pyStrip t).length < 100

/-- Method 2 (lines 272-309): the multilingual strategy, attempted only
when `gate2` holds; its result replaces the current text only when
strictly longer after stripping. -/
def stage2 (env : SEnv) (p : String) (tm : String × String) : String × String :=
  if gate2 tm.1 then
    match mlFor env p with
    | Except.ok content =>
      if (pyStrip tm.1).length < (pyStrip (flattenML content)).length then
        (flattenML content, "multilingual_pdf2text")
      else tm
    | Except.error _ => tm
  else tm

/-- The gate in front of Method 3 (line 312):
`not extracted_text or len(extracted_text.strip()) < 50`. -/
def gate3 (t : String) : Bool := t = "" || (pyStrip t).length < 50

/-- Method 3 (lines 311-329): the PyPDF2 fallback, attempted only when
`gate3` holds. -/
def stage3 (env : SEnv) (p : String) (tm : String × String) : String × String :=
  if gate3 tm.1 then
    match pyFor env p with
    | Except.ok pages =>
      if (pyStrip tm.1).length <
          (pyStrip (pages.foldl (fun acc s => acc ++ s ++ "\n\n") "")).length then
        (pages.foldl (fun acc s => acc ++ s ++ "\n\n") "", "pypdf2")
      else tm
    | Except.error _ => tm
  else tm

/-- The extraction cascade for a located file: final `(text, method)` and
the tags of the strategies attempted, in order. -/
def cascade (env : SEnv) (p : String) : String × String × List String :=
  (( stage3 env p (stage2 env p (stage1 env p))).1,
   (stage3 env p (stage2 env p (stage1 env p))).2,
   "enhanced_ocr" ::
     ((if gate2 (stage1 env p).1 then ["multilingual_pdf2text"] else []) ++
      (if gate3 (stage2 env p (stage1 env p)).1 then ["pypdf2"] else [])))

/-- Outcome of the body of `extract_text_from_pdf` inside its
`try`/`except`. -/
inductive SOut where
  | ok (filename : String) (size : Nat) (text method : String)
  | failed (e : String)

/-- The body of `extract_text_from_pdf` (pdf-text-extractor.py lines
242-369) before result construction.  A `none` path makes
`os.path.exists` raise `TypeError`; a missing file raises
`FileNotFoundError`; both are caught by the function's own handler. -/
def extractRun (env : SEnv) (p? : Option String) : SOut :=
  match p? with
  | none => SOut.failed "stat: path should be string, bytes, os.PathLike or integer, not NoneType"
  | some p =>
    if osExistsS env p then
      let c := cascade env p
      let t := if c.1 ≠ "" then post_process_extracted_text c.1 else c.1
      SOut.ok (basename p) (sizeFor env p) t c.2.1
    else SOut.failed ("PDF file not found: " ++ p)

/-- The success result dict of the standalone script (lines 342-352). -/
def okDocS (lang : String) (filename : String) (size : Nat) (text method : String) : JDoc :=
  [("success", JField.atom (JAtom.jb true)),
   ("text", JField.atom (JAtom.js text)),
   ("metadata", JField.obj
     [("filename", JAtom.js filename),
      ("file_size", JAtom.jn size),
      ("language", JAtom.js lang),
      ("extraction_method", JAtom.js method),
      ("text_length", JAtom.jn text.length)])]

/-- The failure result dict of the standalone script (lines 359-369). -/
def errDocS (p? : Option String) (lang e : String) : JDoc :=
  [("success", JField.atom (JAtom.jb false)),
   ("error", JField.atom (JAtom.js e)),
   ("text", JField.atom (JAtom.js "")),
   ("metadata", JField.obj
     [("filename", JAtom.js (fallbackName p?)),
      ("file_size", JAtom.jn 0),
      ("language", JAtom.js lang),
      ("extraction_method", JAtom.js "failed")])]

/-- `extract_text_from_pdf` (pdf-text-extractor.py lines 242-369). -/
def extract_text_from_pdf (env : SEnv) (p? : Option String) (lang : String) : JDoc :=
  match extractRun env p? with
  | SOut.ok filename size text method => okDocS lang filename size text method
  | SOut.failed e => errDocS p? lang e

/-- The strategy tags attempted by one invocation of the standalone
script (empty when the file is never located). -/
def attemptedStrategies (env : SEnv) (p? : Option String) : List String :=
  match p? with
  | none => []
  | some p => if osExistsS env p then (cascade env p).2.2 else []

/-- The dict printed by `main` when no path argument is supplied
(lines 374-379). -/
def noArgDoc : JDoc :=
  [("success", JField.atom (JAtom.jb false)),
   ("error", JField.atom (JAtom.js "PDF file path is required as argument")),
   ("text", JField.atom (JAtom.js "")),
   ("metadata", JField.obj [])]

/-- The dict printed by `main` when package installation fails
(lines 387-392). -/
def installFailDoc : JDoc :=
  [("success", JField.atom (JAtom.jb false)),
   ("error", JField.atom (JAtom.js "Failed to install required packages")),
   ("text", JField.atom (JAtom.js "")),
   ("metadata", JField.obj [])]

/-- `main` (pdf-text-extractor.py lines 371-399): given `sys.argv`
(programme name included) and the outcome of
`install_required_packages()` (externally determined), returns the
process exit status and the JSON printed.  A normal fall-through exits
with status 0. -/
def mainRun (env : SEnv) (argv : List String) (installOk : Bool) : Nat × JDoc :=
  if argv.length < 2 then (1, noArgDoc)
  else if !installOk then (1, installFailDoc)
  else
    (0, extract_text_from_pdf env (argv.get? 1)
      (if 2 < argv.length then (argv.get? 2).getD "eng" else "eng"))

/-! ## Lemmas about the string primitives -/

theorem mem_of_startsWithL {pat l : List Char} (h : startsWithL pat l = true) :
    ∀ c ∈ pat, c ∈ l := by
  induction pat generalizing l with
  | nil => intro c hc; cases hc
  | cons a as ih =>
    cases l with
    | nil => simp [startsWithL] at h
    | cons b bs =>
      simp only [startsWithL, Bool.and_eq_true, decide_eq_true_eq] at h
      intro c hc
      rcases List.mem_cons.mp hc with h1 | h1
      · subst h1; rw [h.1]; exact List.mem_cons_self _ _
      · exact List.mem_cons_of_mem _ (ih h.2 c h1)

theorem mem_of_containsL {pat l : List Char} (h : containsL pat l = true) :
    ∀ c ∈ pat, c ∈ l := by
  induction l with
  | nil =>
    intro c hc
    cases pat with
    | nil => cases hc
    | cons a as => simp [containsL, startsWithL] at h
  | cons b bs ih =>
    simp only [containsL, Bool.or_eq_true] at h
    intro c hc
    rcases h with h | h
    · exact mem_of_startsWithL h c hc
    · exact List.mem_cons_of_mem _ (ih h c hc)

theorem startsWithL_append {pat u v : List Char} (h : startsWithL pat u = true) :
    startsWithL pat (u ++ v) = true := by
  induction pat generalizing u with
  | nil => simp [startsWithL]
  | cons a as ih =>
    cases u with
    | nil => simp [startsWithL] at h
    | cons b bs =>
      simp only [List.cons_append, startsWithL, Bool.and_eq_true] at h ⊢
      exact ⟨h.1, ih h.2⟩

theorem containsL_cons {pat rest : List Char} {c : Char}
    (h : containsL pat rest = true) : containsL pat (c :: rest) = true := by
  simp only [containsL, Bool.or_eq_true]
  exact Or.inr h

theorem containsL_nil_pat (l : List Char) : containsL ([] : List Char) l = true := by
  induction l with
  | nil => rfl
  | cons c rest ih => simp [containsL, startsWithL]

theorem containsL_append {pat u v : List Char} (h : containsL pat u = true) :
    containsL pat (u ++ v) = true := by
  induction u with
  | nil =>
    cases pat with
    | nil => simpa using containsL_nil_pat v
    | cons a as => simp [containsL, startsWithL] at h
  | cons b bs ih =>
    simp only [containsL, Bool.or_eq_true] at h
    rcases h with h | h
    · simp only [List.cons_append, containsL, Bool.or_eq_true]
      exact Or.inl (by simpa using startsWithL_append (v := v) h)
    · simpa using containsL_cons (ih h)

theorem containsL_append_left {pat v : List Char} (u : List Char)
    (h : containsL pat v = true) : containsL pat (u ++ v) = true := by
  induction u with
  | nil => simpa using h
  | cons b bs ih => simpa using containsL_cons ih

theorem containsL_dropWhile {pat l : List Char} {q : Char → Bool}
    (h : containsL pat (l.dropWhile q) = true) : containsL pat l = true := by
  have e := List.takeWhile_append_dropWhile (p := q) (l := l)
  calc containsL pat l = containsL pat (l.takeWhile q ++ l.dropWhile q) := by rw [e]
    _ = true := containsL_append_left _ h

theorem rstripL_exists_append : ∀ l : List Char, ∃ w, rstripL l ++ w = l := by
  intro l
  induction l with
  | nil => exact ⟨[], rfl⟩
  | cons c rest ih =>
    obtain ⟨w, hw⟩ := ih
    by_cases h : rstripL rest = [] ∧ pyIsSpace c
    · refine ⟨c :: rest, ?_⟩
      simp only [rstripL, if_pos h, List.nil_append]
    · refine ⟨w, ?_⟩
      simp only [rstripL, if_neg h, List.cons_append, hw]

theorem containsL_rstripL {pat l : List Char}
    (h : containsL pat (rstripL l) = true) : containsL pat l = true := by
  obtain ⟨w, hw⟩ := rstripL_exists_append l
  rw [← hw]
  exact containsL_append h

theorem containsL_pyStripL {pat l : List Char}
    (h : containsL pat (pyStripL l) = true) : containsL pat l = true := by
  have h1 : containsL pat (lstripL l) = true := containsL_rstripL h
  exact containsL_dropWhile h1

theorem mem_rstripL {c : Char} {l : List Char} (h : c ∈ rstripL l) : c ∈ l := by
  induction l with
  | nil => simpa [rstripL] using h
  | cons d rest ih =>
    by_cases hd : rstripL rest = [] ∧ pyIsSpace d
    · rw [rstripL, if_pos hd] at h; cases h
    · rw [rstripL, if_neg hd] at h
      rcases List.mem_cons.mp h with h1 | h1
      · subst h1; exact List.mem_cons_self _ _
      · exact List.mem_cons_of_mem _ (ih h1)

theorem mem_pyStripL {c : Char} {l : List Char} (h : c ∈ pyStripL l) : c ∈ l :=
  (List.dropWhile_sublist pyIsSpace).subset (mem_rstripL h)

theorem rstripL_idem (l : List Char) : rstripL (rstripL l) = rstripL l := by
  induction l with
  | nil => rfl
  | cons c rest ih =>
    by_cases h : rstripL rest = [] ∧ pyIsSpace c
    · have e : rstripL (c :: rest) = [] := by rw [rstripL, if_pos h]
      rw [e]; rfl
    · have e : rstripL (c :: rest) = c :: rstripL rest := by rw [rstripL, if_neg h]
      rw [e, rstripL, ih, if_neg h]

theorem lstripL_idem (l : List Char) : lstripL (lstripL l) = lstripL l := by
  induction l with
  | nil => rfl
  | cons c rest ih =>
    by_cases h : pyIsSpace c
    · simp only [lstripL, List.dropWhile_cons, h, if_pos]
      exact ih
    · simp only [lstripL, List.dropWhile_cons, h]
      simp [h]

theorem lstripL_head_cases (l : List Char) :
    lstripL l = [] ∨ ∃ c rest, lstripL l = c :: rest ∧ pyIsSpace c = false := by
  induction l with
  | nil => exact Or.inl rfl
  | cons c rest ih =>
    by_cases h : pyIsSpace c
    · simpa only [lstripL, List.dropWhile_cons, h, if_pos] using ih
    · refine Or.inr ⟨c, rest, ?_, by simpa using h⟩
      simp [lstripL, List.dropWhile_cons, h]

theorem lstripL_of_head (c : Char) (rest : List Char) (h : pyIsSpace c = false) :
    lstripL (c :: rest) = c :: rest := by
  simp [lstripL, List.dropWhile_cons, h]

theorem lstripL_rstripL (l : List Char) :
    lstripL (rstripL (lstripL l)) = rstripL (lstripL l) := by
  rcases lstripL_head_cases l with h | ⟨c, rest, h, hc⟩
  · rw [h]; rfl
  · rw [h]
    by_cases h2 : rstripL rest = [] ∧ pyIsSpace c
    · rw [rstripL, if_pos h2]; rfl
    · rw [rstripL, if_neg h2]
      exact lstripL_of_head c _ hc

theorem pyStripL_idem (l : List Char) : pyStripL (pyStripL l) = pyStripL l := by
  show rstripL (lstripL (rstripL (lstripL l))) = rstripL (lstripL l)
  rw [lstripL_rstripL, rstripL_idem]

/-! ## Lemmas about the `post_process_extracted_text` stages -/

theorem collapseSp_head? (l : List Char) : (collapseSp l).head? = l.head? := by
  cases l with
  | nil => rfl
  | cons c rest =>
    cases rest with
    | nil => rfl
    | cons c2 r2 =>
      by_cases h : c = ' ' ∧ c2 = ' '
      · rw [collapseSp, if_pos h, h.1]; rfl
      · rw [collapseSp, if_neg h]; rfl

theorem mem_collapseSp {c : Char} {l : List Char} (h : c ∈ collapseSp l) : c ∈ l := by
  induction l using collapseSp.induct with
  | case1 => simpa [collapseSp] using h
  | case2 d => simpa [collapseSp] using h
  | case3 d d2 rest hcond ih =>
    rw [collapseSp, if_pos hcond] at h
    rcases List.mem_cons.mp h with h1 | h1
    · subst h1; rw [hcond.1]; exact List.mem_cons_self _ _
    · exact List.mem_cons_of_mem _ (List.mem_cons_of_mem _ (ih h1))
  | case4 d d2 rest hcond ih =>
    rw [collapseSp, if_neg hcond] at h
    rcases List.mem_cons.mp h with h1 | h1
    · subst h1; exact List.mem_cons_self _ _
    · exact List.mem_cons_of_mem _ (ih h1)

theorem startsWithL_single_head (a : Char) (v : List Char) :
    startsWithL [a] v = (match v.head? with
      | none => false
      | some d => decide (a = d)) := by
  cases v <;> simp [startsWithL]

theorem startsWithL_single_collapseSp (a : Char) (l : List Char) :
    startsWithL [a] (collapseSp l) = startsWithL [a] l := by
  rw [startsWithL_single_head, startsWithL_single_head, collapseSp_head?]

theorem collapseSp_no_double {l : List Char}
    (h : containsL [' ', ' ', ' '] l = false) :
    containsL [' ', ' '] (collapseSp l) = false := by
  induction l using collapseSp.induct with
  | case1 => simp [collapseSp, containsL, startsWithL]
  | case2 d => simp [collapseSp, containsL, startsWithL]
  | case3 d d2 rest hcond ih =>
    obtain ⟨hd, hd2⟩ := hcond
    subst hd; subst hd2
    simp only [containsL, Bool.or_eq_false_iff] at h
    obtain ⟨hs3, hs2, hrest⟩ := h
    rw [collapseSp, if_pos ⟨rfl, rfl⟩]
    simp only [containsL, Bool.or_eq_false_iff]
    refine ⟨?_, ih hrest⟩
    have hs1 : startsWithL [' '] rest = false := by
      simpa [startsWithL] using hs3
    simp [startsWithL, startsWithL_single_collapseSp, hs1]
  | case4 d d2 rest hcond ih =>
    simp only [containsL, Bool.or_eq_false_iff] at h
    obtain ⟨hs3, hs2, hrest⟩ := h
    have hih := ih (by simp only [containsL, Bool.or_eq_false_iff]; exact ⟨hs2, hrest⟩)
    rw [collapseSp, if_neg hcond]
    simp only [containsL, Bool.or_eq_false_iff]
    refine ⟨?_, hih⟩
    by_cases hd : d = ' '
    · subst hd
      have hd2 : ¬(' ' = d2) := fun h2 => hcond ⟨rfl, h2.symm⟩
      simp only [startsWithL]
      rw [startsWithL_single_collapseSp, startsWithL_single_head]
      simp [hd2]
    · have hd' : ¬(' ' = d) := fun h2 => hd h2.symm
      simp [startsWithL, hd']

theorem collapseSp_id_of_no_double {l : List Char}
    (h : containsL [' ', ' '] l = false) : collapseSp l = l := by
  induction l using collapseSp.induct with
  | case1 => rfl
  | case2 d => rfl
  | case3 d d2 rest hcond ih =>
    exfalso
    obtain ⟨hd, hd2⟩ := hcond
    subst hd; subst hd2
    simp [containsL, startsWithL] at h
  | case4 d d2 rest hcond ih =>
    simp only [containsL, Bool.or_eq_false_iff] at h
    rw [collapseSp, if_neg hcond,
      ih (by simp only [containsL, Bool.or_eq_false_iff]; exact h.2)]

theorem replSpNl_id {l : List Char} (h : '\n' ∉ l) : replSpNl l = l := by
  induction l using replSpNl.induct with
  | case1 => rfl
  | case2 d => rfl
  | case3 d d2 rest hcond ih =>
    exact absurd (hcond.2 ▸ List.mem_cons_of_mem _ (List.mem_cons_self _ _)) h
  | case4 d d2 rest hcond ih =>
    rw [replSpNl, if_neg hcond, ih (fun hm => h (List.mem_cons_of_mem _ hm))]

theorem replNlSp_id {l : List Char} (h : '\n' ∉ l) : replNlSp l = l := by
  induction l using replNlSp.induct with
  | case1 => rfl
  | case2 d => rfl
  | case3 d d2 rest hcond ih =>
    exact absurd (hcond.1 ▸ List.mem_cons_self _ _) h
  | case4 d d2 rest hcond ih =>
    rw [replNlSp, if_neg hcond, ih (fun hm => h (List.mem_cons_of_mem _ hm))]

theorem hyphMatch_nl {l : List Char} {p : Char × List Char}
    (h : hyphMatch l = some p) : '\n' ∈ l := by
  cases l with
  | nil => simp [hyphMatch] at h
  | cons c rest2 =>
    simp only [hyphMatch] at h
    split at h
    next hcond =>
      simp only [Bool.and_eq_true, decide_eq_true_eq, List.any_eq_true] at hcond
      obtain ⟨x, hx, hx2⟩ := hcond.2
      have : x ∈ rest2 := (List.takeWhile_sublist pyIsSpace).subset hx
      exact hx2 ▸ List.mem_cons_of_mem _ this
    next => cases h

theorem brokenMatch_nl {l : List Char} {p : Char × List Char}
    (h : brokenMatch l = some p) : '\n' ∈ l := by
  simp only [brokenMatch] at h
  split at h
  next hcond =>
    simp only [List.any_eq_true] at hcond
    obtain ⟨x, hx, hx2⟩ := hcond
    simp only [decide_eq_true_eq] at hx2
    exact hx2 ▸ (List.takeWhile_sublist pyIsSpace).subset hx
  next => cases h

theorem subHyphen_id {l : List Char} (h : '\n' ∉ l) : subHyphen l = l := by
  induction l using subHyphen.induct with
  | case1 => rw [subHyphen]
  | case2 c rest hlow p hm ih =>
    exact absurd (List.mem_cons_of_mem _ (hyphMatch_nl hm)) h
  | case3 c rest hlow hm ih =>
    rw [subHyphen, if_pos hlow, ih (fun hmem => h (List.mem_cons_of_mem _ hmem))]
    split
    next p heq => rw [hm] at heq; cases heq
    next => rfl
  | case4 c rest hlow ih =>
    rw [subHyphen, if_neg hlow, ih (fun hmem => h (List.mem_cons_of_mem _ hmem))]

theorem subBroken_id {l : List Char} (h : '\n' ∉ l) : subBroken l = l := by
  induction l using subBroken.induct with
  | case1 => rw [subBroken]
  | case2 c rest hlow p hm ih =>
    exact absurd (List.mem_cons_of_mem _ (brokenMatch_nl hm)) h
  | case3 c rest hlow hm ih =>
    rw [subBroken, if_pos hlow, ih (fun hmem => h (List.mem_cons_of_mem _ hmem))]
    split
    next p heq => rw [hm] at heq; cases heq
    next => rfl
  | case4 c rest hlow ih =>
    rw [subBroken, if_neg hlow, ih (fun hmem => h (List.mem_cons_of_mem _ hmem))]

theorem subSentence_id {l : List Char} (h : '\n' ∉ l) : subSentence l = l := by
  induction l using subSentence.induct with
  | case1 => rw [subSentence]
  | case2 c rest hlow p hm ih =>
    exact absurd (List.mem_cons_of_mem _ (brokenMatch_nl hm)) h
  | case3 c rest hlow hm ih =>
    rw [subSentence, if_pos hlow, ih (fun hmem => h (List.mem_cons_of_mem _ hmem))]
    split
    next p heq => rw [hm] at heq; cases heq
    next => rfl
  | case4 c rest hlow ih =>
    rw [subSentence, if_neg hlow, ih (fun hmem => h (List.mem_cons_of_mem _ hmem))]

theorem collapseNLs_id {l : List Char} (h : '\n' ∉ l) : collapseNLs l = l := by
  induction l using collapseNLs.induct with
  | case1 => rw [collapseNLs]
  | case2 rest hrun ih =>
    exact absurd (List.mem_cons_self _ _) h
  | case3 rest hrun ih =>
    exact absurd (List.mem_cons_self _ _) h
  | case4 c rest hc ih =>
    rw [collapseNLs, if_neg hc, ih (fun hmem => h (List.mem_cons_of_mem _ hmem))]

theorem containsL_litBRN_false {l : List Char} (h : '\\' ∉ l) :
    containsL litBRN l = false := by
  cases hc : containsL litBRN l with
  | false => rfl
  | true => exact absurd (mem_of_containsL hc '\\' (by decide)) h

theorem containsL_litBVV_false {l : List Char} (h : '\\' ∉ l) :
    containsL litBVV l = false := by
  cases hc : containsL litBVV l with
  | false => rfl
  | true => exact absurd (mem_of_containsL hc '\\' (by decide)) h

theorem toList_mk (l : List Char) : (String.mk l).toList = l := rfl

/-- On a text with no newline and no backslash, every post-processing
stage other than the double-space collapse and the final strip is the
identity. -/
theorem post_process_eq_strip_collapse (s : String)
    (h1 : '\n' ∉ s.toList) (h2 : '\\' ∉ s.toList) :
    post_process_extracted_text s = String.mk (pyStripL (collapseSp s.toList)) := by
  by_cases hs : s = ""
  · subst hs; rfl
  · rw [post_process_extracted_text, if_neg hs]
    dsimp only
    have hnl : '\n' ∉ collapseSp s.toList := fun hc => h1 (mem_collapseSp hc)
    have hbs : '\\' ∉ collapseSp s.toList := fun hc => h2 (mem_collapseSp hc)
    rw [replSpNl_id hnl, replNlSp_id hnl, subHyphen_id hnl, subBroken_id hnl,
      subSentence_id hnl, collapseNLs_id hnl]
    rw [containsL_litBRN_false hbs]
    simp only [Bool.false_eq_true, if_false]
    rw [containsL_litBVV_false hbs]
    simp only [Bool.false_eq_true, if_false]

/-! ## The two-letter whole-word substitution: a match predicate and the
invariants that make a second pass of the post-processor the identity -/

theorem space_not_word {c : Char} (h : pyIsSpace c = true) : isWordChar c = false := by
  simp only [pyIsSpace, Bool.or_eq_true, decide_eq_true_eq] at h
  rcases h with
    (((((((((((h | h) | h) | h) | h) | h) | h) | h) | h) | h) | h) | h) <;>
    subst h <;> decide

theorem bool4 (p q u v : Bool) : (((p && q) && u) && v) = ((p && u) && (q && v)) := by
  cases p <;> cases q <;> cases u <;> cases v <;> rfl

theorem hasMatch_congr {x y : Char} {o1 o2 : Option Char}
    (h : boundaryBefore o1 = boundaryBefore o2) (l : List Char) :
    hasMatch x y o1 l = hasMatch x y o2 l := by
  cases l with
  | nil => rfl
  | cons a rest => simp only [hasMatch, h]

theorem boundaryAfter_subWord2 (x y r : Char) (hx : isWordChar x = true)
    (hr : isWordChar r = true) (prev : Option Char) (l : List Char) :
    boundaryAfter (subWord2 x y r prev l) = boundaryAfter l := by
  match l with
  | [] => rfl
  | [a] => rfl
  | a :: b :: rest =>
    rw [subWord2]
    split
    next hc =>
      simp only [Bool.and_eq_true, decide_eq_true_eq] at hc
      obtain ⟨⟨⟨ha, hb⟩, hu⟩, hv⟩ := hc
      show (!isWordChar r) = (!isWordChar a)
      rw [hr, ha, hx]
    next => rfl

theorem tailMatch_subWord2 (x y r z : Char) (hx : isWordChar x = true)
    (hy : isWordChar y = true) (hr : isWordChar r = true) (hrz : ¬(r = z))
    (prev : Option Char) (b : Char) (rest : List Char) :
    tailMatch z (subWord2 x y r prev (b :: rest)) = tailMatch z (b :: rest) := by
  match rest with
  | [] => rfl
  | c :: rest2 =>
    rw [subWord2]
    split
    next hc =>
      simp only [Bool.and_eq_true, decide_eq_true_eq] at hc
      obtain ⟨⟨⟨hb, hcy⟩, hu⟩, hv⟩ := hc
      subst hcy
      simp only [tailMatch, decide_eq_false hrz, Bool.false_and, boundaryAfter, hy,
        Bool.not_true, Bool.and_false]
    next hc =>
      simp only [tailMatch]
      rw [boundaryAfter_subWord2 x y r hx hr]

theorem subWord2_id_of_noMatch (x y r : Char) :
    ∀ (prev : Option Char) (l : List Char),
      hasMatch x y prev l = false → subWord2 x y r prev l = l := by
  intro prev l
  induction prev, l using subWord2.induct x y r with
  | case1 prev => intro h; rfl
  | case2 prev a => intro h; rfl
  | case3 prev a b rest hc ih =>
    intro h
    rw [hasMatch, Bool.or_eq_false_iff] at h
    obtain ⟨h1, h2⟩ := h
    rw [tailMatch, ← bool4, hc] at h1
    cases h1
  | case4 prev a b rest hc ih =>
    intro h
    rw [hasMatch, Bool.or_eq_false_iff] at h
    rw [subWord2, if_neg hc, ih h.2]

theorem subWord2_noMatch (x y r : Char) (hx : isWordChar x = true)
    (hy : isWordChar y = true) (hr : isWordChar r = true)
    (hrx : ¬(r = x)) (hry : ¬(r = y)) :
    ∀ (prev : Option Char) (l : List Char),
      hasMatch x y prev (subWord2 x y r prev l) = false := by
  intro prev l
  induction prev, l using subWord2.induct x y r with
  | case1 prev => rfl
  | case2 prev a =>
    simp only [subWord2, hasMatch, tailMatch, Bool.and_false, Bool.or_false]
  | case3 prev a b rest hc ih =>
    rw [subWord2, if_pos hc]
    rw [hasMatch, decide_eq_false hrx]
    simp only [Bool.false_and, Bool.and_false, Bool.false_or]
    rw [hasMatch_congr (show boundaryBefore (some r) = boundaryBefore (some y) by
      rw [boundaryBefore, boundaryBefore, hr, hy])]
    exact ih
  | case4 prev a b rest hc ih =>
    rw [subWord2, if_neg hc]
    rw [hasMatch]
    rw [tailMatch_subWord2 x y r y hx hy hr hry]
    simp only [tailMatch]
    rw [← bool4]
    simp only [Bool.not_eq_true] at hc
    rw [hc]
    simp only [Bool.false_or]
    exact ih

theorem hasMatch_subWord2_other (x y x2 y2 r2 : Char)
    (hx2 : isWordChar x2 = true) (hy2 : isWordChar y2 = true)
    (hr2 : isWordChar r2 = true) (hrx : ¬(r2 = x)) (hry : ¬(r2 = y)) :
    ∀ (prev : Option Char) (l : List Char),
      hasMatch x y prev (subWord2 x2 y2 r2 prev l) = true →
        hasMatch x y prev l = true := by
  intro prev l
  induction prev, l using subWord2.induct x2 y2 r2 with
  | case1 prev => intro h; exact h
  | case2 prev a => intro h; exact h
  | case3 prev a b rest hc ih =>
    rw [subWord2, if_pos hc]
    intro h
    rw [hasMatch, decide_eq_false hrx] at h
    simp only [Bool.false_and, Bool.and_false, Bool.false_or] at h
    rw [hasMatch_congr (show boundaryBefore (some r2) = boundaryBefore (some y2) by
      rw [boundaryBefore, boundaryBefore, hr2, hy2])] at h
    have h2 := ih h
    simp only [Bool.and_eq_true, decide_eq_true_eq] at hc
    obtain ⟨⟨⟨ha, hb⟩, hu⟩, hv⟩ := hc
    subst hb
    rw [hasMatch, hasMatch, h2]
    simp
  | case4 prev a b rest hc ih =>
    rw [subWord2, if_neg hc]
    intro h
    rw [hasMatch] at h
    rw [tailMatch_subWord2 x2 y2 r2 y hx2 hy2 hr2 hry] at h
    simp only [Bool.or_eq_true] at h
    rcases h with h | h
    · rw [hasMatch]
      simp only [Bool.or_eq_true]
      exact Or.inl h
    · rw [hasMatch]
      simp only [Bool.or_eq_true]
      exact Or.inr (ih h)

theorem startsWithL_subWord2 (x y r : Char) :
    ∀ (prev : Option Char) (l : List Char) (pat : List Char), r ∉ pat →
      startsWithL pat (subWord2 x y r prev l) = true → startsWithL pat l = true := by
  intro prev l
  induction prev, l using subWord2.induct x y r with
  | case1 prev => intro pat _ h; exact h
  | case2 prev a => intro pat _ h; exact h
  | case3 prev a b rest hc ih =>
    rw [subWord2, if_pos hc]
    intro pat hpr h
    match pat with
    | [] => rfl
    | q :: qs =>
      rw [startsWithL] at h
      simp only [Bool.and_eq_true, decide_eq_true_eq] at h
      exact absurd (show r ∈ q :: qs by rw [← h.1]; exact List.mem_cons_self _ _) hpr
  | case4 prev a b rest hc ih =>
    rw [subWord2, if_neg hc]
    intro pat hpr h
    match pat with
    | [] => rfl
    | q :: qs =>
      rw [startsWithL] at h ⊢
      simp only [Bool.and_eq_true] at h ⊢
      exact ⟨h.1, ih qs (fun hm => hpr (List.mem_cons_of_mem _ hm)) h.2⟩

theorem containsL_subWord2 (x y r : Char) :
    ∀ (prev : Option Char) (l : List Char) (pat : List Char), r ∉ pat →
      containsL pat (subWord2 x y r prev l) = true → containsL pat l = true := by
  intro prev l
  induction prev, l using subWord2.induct x y r with
  | case1 prev => intro pat _ h; exact h
  | case2 prev a => intro pat _ h; exact h
  | case3 prev a b rest hc ih =>
    rw [subWord2, if_pos hc]
    intro pat hpr h
    rw [containsL] at h
    simp only [Bool.or_eq_true] at h
    rcases h with h | h
    · match pat with
      | [] => exact containsL_nil_pat _
      | q :: qs =>
        rw [startsWithL] at h
        simp only [Bool.and_eq_true, decide_eq_true_eq] at h
        exact absurd (show r ∈ q :: qs by rw [← h.1]; exact List.mem_cons_self _ _) hpr
    · exact containsL_cons (containsL_cons (ih pat hpr h))
  | case4 prev a b rest hc ih =>
    rw [subWord2, if_neg hc]
    intro pat hpr h
    rw [containsL] at h
    simp only [Bool.or_eq_true] at h
    rcases h with h | h
    · match pat with
      | [] => exact containsL_nil_pat _
      | q :: qs =>
        rw [startsWithL] at h
        simp only [Bool.and_eq_true] at h
        have hq := startsWithL_subWord2 x y r (some a) (b :: rest) qs
          (fun hm => hpr (List.mem_cons_of_mem _ hm)) h.2
        rw [containsL]
        simp only [Bool.or_eq_true]
        refine Or.inl ?_
        rw [startsWithL]
        simp only [Bool.and_eq_true]
        exact ⟨h.1, hq⟩
    · exact containsL_cons (ih pat hpr h)

theorem mem_subWord2 (x y r : Char) :
    ∀ (prev : Option Char) (l : List Char) {c : Char},
      c ∈ subWord2 x y r prev l → c ∈ l ∨ c = r := by
  intro prev l
  induction prev, l using subWord2.induct x y r with
  | case1 prev => intro c h; cases h
  | case2 prev a => intro c h; exact Or.inl h
  | case3 prev a b rest hc ih =>
    rw [subWord2, if_pos hc]
    intro c h
    rcases List.mem_cons.mp h with h | h
    · exact Or.inr h
    · rcases ih h with h | h
      · exact Or.inl (List.mem_cons_of_mem _ (List.mem_cons_of_mem _ h))
      · exact Or.inr h
  | case4 prev a b rest hc ih =>
    rw [subWord2, if_neg hc]
    intro c h
    rcases List.mem_cons.mp h with h | h
    · exact Or.inl (h ▸ List.mem_cons_self _ _)
    · rcases ih h with h | h
      · exact Or.inl (List.mem_cons_of_mem _ h)
      · exact Or.inr h

theorem rstripL_eq_nil_space : ∀ {l : List Char}, rstripL l = [] →
    ∀ c ∈ l, pyIsSpace c = true := by
  intro l
  induction l with
  | nil => intro _ c hc; cases hc
  | cons d rest ih =>
    intro h c hc
    by_cases hd : rstripL rest = [] ∧ pyIsSpace d
    · rcases List.mem_cons.mp hc with h1 | h1
      · rw [h1]; exact hd.2
      · exact ih hd.1 c h1
    · rw [rstripL, if_neg hd] at h
      cases h

theorem rstripL_append_space : ∀ l : List Char,
    ∃ w, rstripL l ++ w = l ∧ ∀ c ∈ w, pyIsSpace c = true := by
  intro l
  induction l with
  | nil => exact ⟨[], rfl, fun c hc => absurd hc (List.not_mem_nil c)⟩
  | cons d rest ih =>
    by_cases hd : rstripL rest = [] ∧ pyIsSpace d
    · refine ⟨d :: rest, ?_, ?_⟩
      · rw [rstripL, if_pos hd, List.nil_append]
      · intro c hc
        rcases List.mem_cons.mp hc with h1 | h1
        · rw [h1]; exact hd.2
        · exact rstripL_eq_nil_space hd.1 c h1
    · obtain ⟨w, hw, hws⟩ := ih
      refine ⟨w, ?_, hws⟩
      rw [rstripL, if_neg hd, List.cons_append, hw]

theorem hasMatch_append_ws (x y : Char) :
    ∀ (u : List Char) (prev : Option Char) (w : List Char),
      hasMatch x y prev u = true → (∀ c ∈ w, pyIsSpace c = true) →
      hasMatch x y prev (u ++ w) = true := by
  intro u
  induction u with
  | nil =>
    intro prev w h
    rw [show hasMatch x y prev [] = false from rfl] at h
    cases h
  | cons a rest ih =>
    intro prev w h hw
    rw [List.cons_append, hasMatch]
    rw [hasMatch] at h
    simp only [Bool.or_eq_true] at h ⊢
    rcases h with h | h
    · refine Or.inl ?_
      simp only [Bool.and_eq_true] at h ⊢
      refine ⟨h.1, ?_⟩
      obtain ⟨-, h2⟩ := h
      cases rest with
      | nil => rw [show tailMatch y [] = false from rfl] at h2; cases h2
      | cons b rest2 =>
        rw [List.cons_append, tailMatch]
        rw [tailMatch] at h2
        simp only [Bool.and_eq_true] at h2 ⊢
        refine ⟨h2.1, ?_⟩
        cases rest2 with
        | nil =>
          cases w with
          | nil => rfl
          | cons e w2 =>
            rw [List.nil_append, show boundaryAfter (e :: w2) = !isWordChar e from rfl,
              space_not_word (hw e (List.mem_cons_self _ _))]
            rfl
        | cons f rest3 =>
          rw [List.cons_append]
          exact h2.2
    · exact Or.inr (ih (some a) w h hw)

theorem hasMatch_lstripL (x y : Char) :
    ∀ l : List Char, hasMatch x y none (lstripL l) = true →
      hasMatch x y none l = true := by
  intro l
  induction l with
  | nil => intro h; exact h
  | cons c rest ih =>
    intro h
    by_cases hc : pyIsSpace c = true
    · rw [lstripL, List.dropWhile_cons, if_pos hc] at h
      rw [hasMatch]
      simp only [Bool.or_eq_true]
      refine Or.inr ?_
      rw [hasMatch_congr (show boundaryBefore (some c) = boundaryBefore none by
        rw [boundaryBefore, boundaryBefore, space_not_word hc]; rfl)]
      exact ih h
    · rw [lstripL, List.dropWhile_cons, if_neg hc] at h
      exact h

theorem hasMatch_pyStripL (x y : Char) (l : List Char)
    (h : hasMatch x y none (pyStripL l) = true) : hasMatch x y none l = true := by
  apply hasMatch_lstripL
  obtain ⟨w, hw, hws⟩ := rstripL_append_space (lstripL l)
  rw [← hw]
  exact hasMatch_append_ws x y (rstripL (lstripL l)) none w h hws

theorem mem_ocrFixes {c : Char} {l : List Char} (h : c ∈ ocrFixes l) :
    c ∈ l ∨ c = 'm' ∨ c = 'w' := by
  rw [ocrFixes] at h
  split at h
  · split at h
    · rcases mem_subWord2 'v' 'v' 'w' none _ h with h2 | h2
      · rcases mem_subWord2 'r' 'n' 'm' none _ h2 with h3 | h3
        · exact Or.inl h3
        · exact Or.inr (Or.inl h3)
      · exact Or.inr (Or.inr h2)
    · rcases mem_subWord2 'r' 'n' 'm' none _ h with h3 | h3
      · exact Or.inl h3
      · exact Or.inr (Or.inl h3)
  · split at h
    · rcases mem_subWord2 'v' 'v' 'w' none _ h with h2 | h2
      · exact Or.inl h2
      · exact Or.inr (Or.inr h2)
    · exact Or.inl h

theorem containsL_ocrFixes {pat l : List Char} (hm : 'm' ∉ pat) (hw : 'w' ∉ pat)
    (h : containsL pat (ocrFixes l) = true) : containsL pat l = true := by
  rw [ocrFixes] at h
  split at h
  · split at h
    · exact containsL_subWord2 'r' 'n' 'm' none _ pat hm
        (containsL_subWord2 'v' 'v' 'w' none _ pat hw h)
    · exact containsL_subWord2 'r' 'n' 'm' none _ pat hm h
  · split at h
    · exact containsL_subWord2 'v' 'v' 'w' none _ pat hw h
    · exact h

/-- On a text with no newline, the post-processor reduces to the space
collapse, the two guarded digraph substitutions and the final strip. -/
theorem post_process_eq_of_no_newline (s : String) (h1 : '\n' ∉ s.toList) :
    post_process_extracted_text s =
      String.mk (pyStripL (ocrFixes (collapseSp s.toList))) := by
  by_cases hs : s = ""
  · rw [hs]; rfl
  · rw [post_process_extracted_text, if_neg hs]
    dsimp only
    have hnl : '\n' ∉ collapseSp s.toList := fun hc => h1 (mem_collapseSp hc)
    rw [replSpNl_id hnl, replNlSp_id hnl, subHyphen_id hnl, subBroken_id hnl,
      subSentence_id hnl, collapseNLs_id hnl]
    rfl

theorem subHyphen_eval1 :
    subHyphen ['a', '-', '\n', 'b', '-', '\n', 'c'] = ['a', 'b', '-', '\n', 'c'] := by
  rw [subHyphen]
  show 'a' :: 'b' :: subHyphen ['-', '\n', 'c'] = _
  rw [subHyphen]
  show 'a' :: 'b' :: '-' :: subHyphen ['\n', 'c'] = _
  rw [subHyphen]
  show 'a' :: 'b' :: '-' :: '\n' :: subHyphen ['c'] = _
  rw [subHyphen]
  show 'a' :: 'b' :: '-' :: '\n' :: 'c' :: subHyphen [] = _
  rw [subHyphen]

theorem subBroken_eval1 :
    subBroken ['a', 'b', '-', '\n', 'c'] = ['a', 'b', '-', '\n', 'c'] := by
  rw [subBroken]
  show 'a' :: subBroken ['b', '-', '\n', 'c'] = _
  rw [subBroken]
  show 'a' :: 'b' :: subBroken ['-', '\n', 'c'] = _
  rw [subBroken]
  show 'a' :: 'b' :: '-' :: subBroken ['\n', 'c'] = _
  rw [subBroken]
  show 'a' :: 'b' :: '-' :: '\n' :: subBroken ['c'] = _
  rw [subBroken]
  show 'a' :: 'b' :: '-' :: '\n' :: 'c' :: subBroken [] = _
  rw [subBroken]

theorem subSentence_eval1 :
    subSentence ['a', 'b', '-', '\n', 'c'] = ['a', 'b', '-', '\n', 'c'] := by
  rw [subSentence]
  show 'a' :: subSentence ['b', '-', '\n', 'c'] = _
  rw [subSentence]
  show 'a' :: 'b' :: subSentence ['-', '\n', 'c'] = _
  rw [subSentence]
  show 'a' :: 'b' :: '-' :: subSentence ['\n', 'c'] = _
  rw [subSentence]
  show 'a' :: 'b' :: '-' :: '\n' :: subSentence ['c'] = _
  rw [subSentence]
  show 'a' :: 'b' :: '-' :: '\n' :: 'c' :: subSentence [] = _
  rw [subSentence]

theorem collapseNLs_eval1 :
    collapseNLs ['a', 'b', '-', '\n', 'c'] = ['a', 'b', '-', '\n', 'c'] := by
  rw [collapseNLs]
  show 'a' :: collapseNLs ['b', '-', '\n', 'c'] = _
  rw [collapseNLs]
  show 'a' :: 'b' :: collapseNLs ['-', '\n', 'c'] = _
  rw [collapseNLs]
  show 'a' :: 'b' :: '-' :: collapseNLs ['\n', 'c'] = _
  rw [collapseNLs]
  show 'a' :: 'b' :: '-' :: '\n' :: ([] ++ collapseNLs ['c']) = _
  rw [collapseNLs]
  show 'a' :: 'b' :: '-' :: '\n' :: ([] ++ ('c' :: collapseNLs [])) = _
  rw [collapseNLs]
  rfl

theorem subHyphen_eval2 :
    subHyphen ['a', 'b', '-', '\n', 'c'] = ['a', 'b', 'c'] := by
  rw [subHyphen]
  show 'a' :: subHyphen ['b', '-', '\n', 'c'] = _
  rw [subHyphen]
  show 'a' :: 'b' :: 'c' :: subHyphen [] = _
  rw [subHyphen]

theorem post_eval1 :
    post_process_extracted_text (String.mk ['a', '-', '\n', 'b', '-', '\n', 'c']) =
      String.mk ['a', 'b', '-', '\n', 'c'] := by
  rw [post_process_extracted_text, if_neg (by decide)]
  dsimp only
  rw [show collapseSp ((String.mk ['a', '-', '\n', 'b', '-', '\n', 'c']).toList) =
    ['a', '-', '\n', 'b', '-', '\n', 'c'] from rfl]
  rw [show replSpNl ['a', '-', '\n', 'b', '-', '\n', 'c'] =
    ['a', '-', '\n', 'b', '-', '\n', 'c'] from rfl]
  rw [show replNlSp ['a', '-', '\n', 'b', '-', '\n', 'c'] =
    ['a', '-', '\n', 'b', '-', '\n', 'c'] from rfl]
  rw [subHyphen_eval1, subBroken_eval1, subSentence_eval1, collapseNLs_eval1]
  rw [show containsL litBRN ['a', 'b', '-', '\n', 'c'] = false from rfl]
  simp only [Bool.false_eq_true, if_false]
  rw [show containsL litBVV ['a', 'b', '-', '\n', 'c'] = false from rfl]
  simp only [Bool.false_eq_true, if_false]
  rfl

theorem post_eval2 :
    post_process_extracted_text (String.mk ['a', 'b', '-', '\n', 'c']) =
      String.mk ['a', 'b', 'c'] := by
  rw [post_process_extracted_text, if_neg (by decide)]
  dsimp only
  rw [show collapseSp ((String.mk ['a', 'b', '-', '\n', 'c']).toList) =
    ['a', 'b', '-', '\n', 'c'] from rfl]
  rw [show replSpNl ['a', 'b', '-', '\n', 'c'] = ['a', 'b', '-', '\n', 'c'] from rfl]
  rw [show replNlSp ['a', 'b', '-', '\n', 'c'] = ['a', 'b', '-', '\n', 'c'] from rfl]
  rw [subHyphen_eval2]
  rw [subBroken_id (by decide), subSentence_id (by decide), collapseNLs_id (by decide)]
  rw [show containsL litBRN ['a', 'b', 'c'] = false from rfl]
  simp only [Bool.false_eq_true, if_false]
  rw [show containsL litBVV ['a', 'b', 'c'] = false from rfl]
  simp only [Bool.false_eq_true, if_false]
  rfl

/-- After one pass of strip-after-digraph-fixes, a text with no newline
and no double space is a fixed point of the whole post-processor. -/
theorem post_process_fixpoint (l : List Char) (hnl : '\n' ∉ l)
    (hnd : containsL [' ', ' '] l = false) :
    post_process_extracted_text (String.mk (pyStripL (ocrFixes l))) =
      String.mk (pyStripL (ocrFixes l)) := by
  have f1 : '\n' ∉ ocrFixes l := by
    intro hc
    rcases mem_ocrFixes hc with h | h | h
    · exact hnl h
    · exact absurd h (by decide)
    · exact absurd h (by decide)
  have f2 : containsL [' ', ' '] (ocrFixes l) = false := by
    cases hc : containsL [' ', ' '] (ocrFixes l) with
    | false => rfl
    | true =>
      have h2 := containsL_ocrFixes (by decide) (by decide) hc
      rw [hnd] at h2
      cases h2
  have f3 : '\n' ∉ pyStripL (ocrFixes l) := fun hc => f1 (mem_pyStripL hc)
  have f4 : containsL [' ', ' '] (pyStripL (ocrFixes l)) = false := by
    cases hc : containsL [' ', ' '] (pyStripL (ocrFixes l)) with
    | false => rfl
    | true =>
      have h2 := containsL_pyStripL hc
      rw [f2] at h2
      cases h2
  have f5 : (if containsL litBRN (pyStripL (ocrFixes l)) then
      subWord2 'r' 'n' 'm' none (pyStripL (ocrFixes l))
      else pyStripL (ocrFixes l)) = pyStripL (ocrFixes l) := by
    by_cases g : containsL litBRN (pyStripL (ocrFixes l)) = true
    · have gl : containsL litBRN l = true :=
        containsL_ocrFixes (by decide) (by decide) (containsL_pyStripL g)
      have hoc : ocrFixes l =
          (if containsL litBVV (subWord2 'r' 'n' 'm' none l) then
            subWord2 'v' 'v' 'w' none (subWord2 'r' 'n' 'm' none l)
            else subWord2 'r' 'n' 'm' none l) := by
        rw [ocrFixes, if_pos gl]
      have hm0 : hasMatch 'r' 'n' none (subWord2 'r' 'n' 'm' none l) = false :=
        subWord2_noMatch 'r' 'n' 'm' (by decide) (by decide) (by decide)
          (by decide) (by decide) none l
      have hm1 : hasMatch 'r' 'n' none (ocrFixes l) = false := by
        rw [hoc]
        split
        · cases hx : hasMatch 'r' 'n' none
              (subWord2 'v' 'v' 'w' none (subWord2 'r' 'n' 'm' none l)) with
          | false => rfl
          | true =>
            have h2 := hasMatch_subWord2_other 'r' 'n' 'v' 'v' 'w' (by decide)
              (by decide) (by decide) (by decide) (by decide) none _ hx
            rw [hm0] at h2
            cases h2
        · exact hm0
      have hm2 : hasMatch 'r' 'n' none (pyStripL (ocrFixes l)) = false := by
        cases hx : hasMatch 'r' 'n' none (pyStripL (ocrFixes l)) with
        | false => rfl
        | true =>
          have h2 := hasMatch_pyStripL 'r' 'n' _ hx
          rw [hm1] at h2
          cases h2
      rw [if_pos g]
      exact subWord2_id_of_noMatch 'r' 'n' 'm' none _ hm2
    · rw [if_neg g]
  have f6 : (if containsL litBVV (pyStripL (ocrFixes l)) then
      subWord2 'v' 'v' 'w' none (pyStripL (ocrFixes l))
      else pyStripL (ocrFixes l)) = pyStripL (ocrFixes l) := by
    by_cases g : containsL litBVV (pyStripL (ocrFixes l)) = true
    · have gvv : containsL litBVV (ocrFixes l) = true := containsL_pyStripL g
      have hvv : hasMatch 'v' 'v' none (ocrFixes l) = false := by
        by_cases gg : containsL litBVV
            (if containsL litBRN l then subWord2 'r' 'n' 'm' none l else l) = true
        · rw [ocrFixes]
          rw [if_pos gg]
          exact subWord2_noMatch 'v' 'v' 'w' (by decide) (by decide) (by decide)
            (by decide) (by decide) none _
        · exfalso
          have hoc : ocrFixes l =
              (if containsL litBRN l then subWord2 'r' 'n' 'm' none l else l) := by
            rw [ocrFixes, if_neg gg]
          rw [hoc] at gvv
          exact gg gvv
      have hvu : hasMatch 'v' 'v' none (pyStripL (ocrFixes l)) = false := by
        cases hx : hasMatch 'v' 'v' none (pyStripL (ocrFixes l)) with
        | false => rfl
        | true =>
          have h2 := hasMatch_pyStripL 'v' 'v' _ hx
          rw [hvv] at h2
          cases h2
      rw [if_pos g]
      exact subWord2_id_of_noMatch 'v' 'v' 'w' none _ hvu
    · rw [if_neg g]
  rw [post_process_eq_of_no_newline _ (by rw [toList_mk]; exact f3)]
  rw [toList_mk]
  rw [collapseSp_id_of_no_double f4]
  have hocru : ocrFixes (pyStripL (ocrFixes l)) = pyStripL (ocrFixes l) := by
    rw [ocrFixes]
    rw [f5]
    exact f6
  rw [hocru, pyStripL_idem]

theorem stringMk_ne_empty {l : List Char} (h : l ≠ []) : String.mk l ≠ "" := by
  intro he
  exact h (congrArg String.data he)

theorem toList_ne_nil {s : String} (h : s ≠ "") : s.toList ≠ [] := by
  intro he
  apply h
  obtain ⟨data⟩ := s
  rw [toList_mk] at he
  subst he
  rfl

theorem or_shuffle5 (r t3 s c p : Bool) :
    (r || ((t3 || s) || (c || p))) = ((r || (s || (c || p))) || t3) := by
  cases r <;> cases t3 <;> cases s <;> cases c <;> cases p <;> rfl

/-! ## Claim theorems -/

/-- C1, counterexample: the claimed idempotence
`post_process_extracted_text (post_process_extracted_text x) = post_process_extracted_text x`
fails in two independent ways.  At `x = "a    b"` (four spaces), Python's
`replace('  ', ' ')` is a single non-overlapping pass, so one application
yields `"a  b"` and a second yields `"a b"`.  At `x = "a-\nb-\nc"`, the
hyphen-rejoin regex consumes the matched `b` and resumes after it, so one
application yields `"ab-\nc"` and a second application rejoins the
remaining pair, yielding `"abc"`. -/
theorem c1_counterexample :
    (post_process_extracted_text (post_process_extracted_text "a    b") ≠
      post_process_extracted_text "a    b") ∧
    (post_process_extracted_text
        (post_process_extracted_text (String.mk ['a', '-', '\n', 'b', '-', '\n', 'c'])) ≠
      post_process_extracted_text (String.mk ['a', '-', '\n', 'b', '-', '\n', 'c'])) := by
  constructor
  · have e1 : post_process_extracted_text "a    b" = "a  b" := by
      rw [post_process_eq_strip_collapse _ (by decide) (by decide)]
      decide
    have e2 : post_process_extracted_text "a  b" = "a b" := by
      rw [post_process_eq_strip_collapse _ (by decide) (by decide)]
      decide
    rw [e1, e2]
    decide
  · rw [post_eval1, post_eval2]
    intro h
    have h2 := congrArg String.data h
    simp only at h2
    exact absurd h2 (by decide)

/-- C1, amended: the post-processor is idempotent on every text that
contains no newline and no run of three or more consecutive spaces.
These are exactly the two failure modes of the counterexample; in
particular texts containing backslashes — including the literal `\brn\b`
and `\bvv\b` guards that make the digraph substitutions fire — are
covered. -/
theorem c1_post_process_idempotent_on_tame_text (s : String)
    (h1 : '\n' ∉ s.toList)
    (h3 : containsL [' ', ' ', ' '] s.toList = false) :
    post_process_extracted_text (post_process_extracted_text s) =
      post_process_extracted_text s := by
  rw [post_process_eq_of_no_newline s h1]
  exact post_process_fixpoint (collapseSp s.toList)
    (fun hc => h1 (mem_collapseSp hc)) (collapseSp_no_double h3)

/-- C1, witness for the amended theorem at a concrete text containing the
literal `\brn\b` (so the first digraph substitution actually fires on the
standalone word `rn`) together with newline-free ordinary prose. -/
theorem c1_witness :
    post_process_extracted_text
        (post_process_extracted_text "see \\brn\\b here: rn and vv stay") =
      post_process_extracted_text "see \\brn\\b here: rn and vv stay" :=
  c1_post_process_idempotent_on_tame_text "see \\brn\\b here: rn and vv stay"
    (by decide) (by decide)

/-- C2: the digraph substitution never fires on ordinary text.  The code
guards the substitution with `pattern in cleaned` where `pattern` is the
literal six-character string `\brn\b`, a plain substring test rather than
a regex search; `"a rn b"` does not contain that literal, so the
standalone word `rn` is left unchanged, although the code's own comments
say the fix is applied to whole-word matches. -/
theorem c2_digraph_substitution_never_fires :
    post_process_extracted_text "a rn b" = "a rn b" ∧
      post_process_extracted_text "a rn b" ≠ "a m b" := by
  have e1 : post_process_extracted_text "a rn b" = "a rn b" := by
    rw [post_process_eq_strip_collapse _ (by decide) (by decide)]
    decide
  exact ⟨e1, by rw [e1]; decide⟩

/-- C5, counterexample: `"ab   cdefghij"` contains three consecutive
spaces, so `is_text_garbled` flags it via the `'   ' in text` test, yet
none of the five conditions listed by the claim holds (trimmed length 13,
meaningful ratio 1, space count 3 of 13, no uppercase, no repetition).
The claim's condition list read as exhaustive is therefore wrong. -/
theorem c5_counterexample :
    is_text_garbled "ab   cdefghij" = true ∧
      claimGarbledCond "ab   cdefghij" = false := by
  constructor <;> decide

/-- C5, amended: `is_text_garbled` classifies a text as garbled exactly
when one of the claim's five conditions holds or the text contains three
consecutive spaces (the `'   ' in text` half of the excessive-space test,
which the claim omits). -/
theorem c5_garbled_iff_claim_or_triple_space (text : String) :
    is_text_garbled text =
      (claimGarbledCond text || containsL [' ', ' ', ' '] text.toList) := by
  rw [is_text_garbled]
  dsimp only
  split
  next hcond =>
    simp only [Bool.or_eq_true, decide_eq_true_eq] at hcond
    have h10 : (pyStripL text.toList).length < 10 := by
      rcases hcond with h | h
      · subst h; decide
      · exact h
    have hc : claimGarbledCond text = true := by
      rw [claimGarbledCond]
      rw [decide_eq_true h10]
      simp
    rw [hc, Bool.true_or]
  next hcond =>
    simp only [Bool.or_eq_true, decide_eq_true_eq, not_or] at hcond
    obtain ⟨h0, h10⟩ := hcond
    have hlen : text.toList.length ≠ 0 :=
      fun he => toList_ne_nil h0 (List.length_eq_zero.mp he)
    rw [if_neg hlen, claimGarbledCond]
    rw [Bool.eq_iff_iff]
    simp only [Bool.or_eq_true, decide_eq_true_eq]
    tauto

/-- C4: for every environment, path (an existing, missing or empty string,
or `none` for Python's `None`, which makes `os.path.exists` raise) and
language code, both entry points return a result object containing the
keys `success`, `text` and `metadata`; every exception raised inside is
absorbed by the outer handler into such a structured result. -/
theorem c4_result_always_has_required_keys (envE : Env) (envS : SEnv)
    (p q : Option String) (lang lang2 : String) :
    (hasKey (extract_pdf_text envE p lang) "success" = true ∧
     hasKey (extract_pdf_text envE p lang) "text" = true ∧
     hasKey (extract_pdf_text envE p lang) "metadata" = true) ∧
    (hasKey (extract_text_from_pdf envS q lang2) "success" = true ∧
     hasKey (extract_text_from_pdf envS q lang2) "text" = true ∧
     hasKey (extract_text_from_pdf envS q lang2) "metadata" = true) := by
  constructor
  · cases hib : innerBody envE p with
    | error e => simp [extract_pdf_text, hib, errDoc, hasKey]
    | ok io =>
      cases io with
      | notFound tried => simp [extract_pdf_text, hib, notFoundDoc, hasKey]
      | located l => simp [extract_pdf_text, hib, okDoc, hasKey]
  · cases hsr : extractRun envS q with
    | ok fn sz t m => simp [extract_text_from_pdf, hsr, okDocS, hasKey]
    | failed e => simp [extract_text_from_pdf, hsr, errDocS, hasKey]

/-- C7: the standalone script's exit status is 1 exactly when no path
argument is supplied or the package-installation step reports failure,
and 0 in every other case — extraction failure only shows in the printed
JSON, never in the exit status. -/
theorem c7_exit_status (env : SEnv) (argv : List String) (installOk : Bool) :
    ((mainRun env argv installOk).1 = 1 ↔ (argv.length < 2 ∨ installOk = false)) ∧
    ((mainRun env argv installOk).1 = 0 ↔ ¬(argv.length < 2 ∨ installOk = false)) := by
  by_cases h2 : argv.length < 2
  · simp [mainRun, h2]
  · cases installOk <;> simp [mainRun, h2]

/-- C9: if the nominal path exists, the resolver returns exactly that
path without probing any alternate candidate or glob pattern, and the
result's `actual_path` metadata records that same path. -/
theorem c9_resolver_returns_existing_path_immediately (env : Env) (p : String)
    (lang : String) (h : osPathExists env p = true) :
    resolvePath env p = (some p, []) ∧
      getMeta (extract_pdf_text env (some p) lang) "actual_path" =
        some (JAtom.js p) := by
  constructor
  · rw [resolvePath, if_pos h]
  · rw [extract_pdf_text]
    rw [innerBody]
    rw [resolvePath, if_pos h]
    simp [locatedRun, okDoc, getMeta, getField, List.find?]

/-- C9, witness at a one-file environment. -/
theorem c9_witness :
    resolvePath ⟨true, [("/a/b.pdf", [1, 2])], [], []⟩ "/a/b.pdf" =
        (some "/a/b.pdf", []) ∧
      getMeta (extract_pdf_text ⟨true, [("/a/b.pdf", [1, 2])], [], []⟩
          (some "/a/b.pdf") "eng") "actual_path" =
        some (JAtom.js "/a/b.pdf") :=
  c9_resolver_returns_existing_path_immediately _ _ "eng" (by decide)

theorem probeCands_none {env : Env} {cl : List String}
    (h : ∀ r ∈ cl, osPathExists env r = false) : (probeCands env cl).1 = none := by
  induction cl with
  | nil => rfl
  | cons r rest ih =>
    rw [probeCands, h r (List.mem_cons_self _ _)]
    simp only [Bool.false_eq_true, if_false]
    exact ih (fun x hx => h x (List.mem_cons_of_mem _ hx))

theorem probeGlob_none {env : Env} {gl : List String}
    (h : ∀ pat ∈ gl, globFor env pat = []) : (probeGlob env gl).1 = none := by
  induction gl with
  | nil => rfl
  | cons pat rest ih =>
    rw [probeGlob, h pat (List.mem_cons_self _ _)]
    exact ih (fun x hx => h x (List.mem_cons_of_mem _ hx))

theorem resolvePath_none {env : Env} {p : String}
    (h1 : ∀ r ∈ possiblePaths p, osPathExists env r = false)
    (h2 : ∀ pat ∈ globPatterns p, globFor env pat = []) :
    (resolvePath env p).1 = none := by
  rw [resolvePath, h1 p (List.mem_cons_self _ _)]
  simp only [Bool.false_eq_true, if_false]
  rw [probeCands_none h1]
  rw [probeGlob_none h2]

/-- C8: when no candidate path and no glob pattern yields an existing
file, the embedded variant returns `success: false`, an error message
naming the not-found condition together with the candidate list, and the
full candidate list in the metadata's `attempted_paths`; the standalone
variant returns `success: false` with the `FileNotFoundError` message
naming the path. -/
theorem c8_not_found_reporting (env : Env) (envS : SEnv) (p q lang lang2 : String)
    (h1 : ∀ r ∈ possiblePaths p, osPathExists env r = false)
    (h2 : ∀ pat ∈ globPatterns p, globFor env pat = [])
    (h3 : osExistsS envS q = false) :
    getField (extract_pdf_text env (some p) lang) "success" =
        some (JField.atom (JAtom.jb false)) ∧
    getField (extract_pdf_text env (some p) lang) "error" =
        some (JField.atom (JAtom.js
          ("PDF file not found. Tried paths: " ++ pyListRepr (possiblePaths p)))) ∧
    getMeta (extract_pdf_text env (some p) lang) "attempted_paths" =
        some (JAtom.jss (possiblePaths p)) ∧
    getField (extract_text_from_pdf envS (some q) lang2) "success" =
        some (JField.atom (JAtom.jb false)) ∧
    getField (extract_text_from_pdf envS (some q) lang2) "error" =
        some (JField.atom (JAtom.js ("PDF file not found: " ++ q))) := by
  have he : extract_pdf_text env (some p) lang = notFoundDoc (some p) lang (possiblePaths p) := by
    rw [extract_pdf_text, innerBody, resolvePath_none h1 h2]
  have hs : extract_text_from_pdf envS (some q) lang2 =
      errDocS (some q) lang2 ("PDF file not found: " ++ q) := by
    rw [extract_text_from_pdf, extractRun, h3]
    simp only [Bool.false_eq_true, if_false]
  rw [he, hs]
  refine ⟨rfl, rfl, ?_, rfl, rfl⟩
  simp [getMeta, getField, notFoundDoc, List.find?]

/-- C8, witness at an empty filesystem. -/
theorem c8_witness :
    getField (extract_pdf_text ⟨false, [], [], []⟩ (some "/no/such/file.pdf") "eng")
        "success" = some (JField.atom (JAtom.jb false)) ∧
    getField (extract_pdf_text ⟨false, [], [], []⟩ (some "/no/such/file.pdf") "eng")
        "error" = some (JField.atom (JAtom.js
          ("PDF file not found. Tried paths: " ++
            pyListRepr (possiblePaths "/no/such/file.pdf")))) ∧
    getMeta (extract_pdf_text ⟨false, [], [], []⟩ (some "/no/such/file.pdf") "eng")
        "attempted_paths" = some (JAtom.jss (possiblePaths "/no/such/file.pdf")) ∧
    getField (extract_text_from_pdf ⟨[], [], [], []⟩ (some "/no/such/file.pdf") "eng")
        "success" = some (JField.atom (JAtom.jb false)) ∧
    getField (extract_text_from_pdf ⟨[], [], [], []⟩ (some "/no/such/file.pdf") "eng")
        "error" = some (JField.atom (JAtom.js
          ("PDF file not found: " ++ "/no/such/file.pdf"))) :=
  c8_not_found_reporting ⟨false, [], [], []⟩ ⟨[], [], [], []⟩
    "/no/such/file.pdf" "/no/such/file.pdf" "eng" "eng"
    (by decide) (by decide) (by decide)

/-- C3, counterexample: PyPDF2 unavailable, the file located, and its
content not starting with `%PDF-` — exactly the situation of the claim —
yet the returned result has `success` set to `true`, not `false`. -/
theorem c3_counterexample :
    startsWithPDF (contentFor ⟨false, [("/x.pdf", [1, 2, 3])], [], []⟩ "/x.pdf") = false ∧
    getField (extract_pdf_text ⟨false, [("/x.pdf", [1, 2, 3])], [], []⟩
        (some "/x.pdf") "eng") "success" = some (JField.atom (JAtom.jb true)) := by
  exact ⟨by decide, by decide⟩

set_option maxRecDepth 4000 in
/-- C3, amended: when the located file's content does not start with the
`%PDF-` signature and PyPDF2 is unavailable, the invalid-PDF exception of
the byte-scan fallback is caught locally: the result has `success: true`,
an empty `error` field, `extraction_method` `"failed"`, and the
explanation `PDF file exists but could not be processed: File does not
appear to be a valid PDF` in the `text` field. -/
theorem c3_invalid_pdf_yields_success_with_message (env : Env) (p lang : String)
    (h1 : osPathExists env p = true)
    (h2 : env.pypdf2Available = false)
    (h3 : startsWithPDF (contentFor env p) = false) :
    getField (extract_pdf_text env (some p) lang) "success" =
        some (JField.atom (JAtom.jb true)) ∧
    getField (extract_pdf_text env (some p) lang) "error" =
        some (JField.atom (JAtom.js "")) ∧
    getMeta (extract_pdf_text env (some p) lang) "extraction_method" =
        some (JAtom.js "failed") ∧
    getField (extract_pdf_text env (some p) lang) "text" =
        some (JField.atom (JAtom.js
          "PDF file exists but could not be processed: File does not appear to be a valid PDF")) := by
  have hloc : extract_pdf_text env (some p) lang = okDoc lang (locatedRun env p) := by
    rw [extract_pdf_text, innerBody, resolvePath, if_pos h1]
  have hscan : byteScanPhase (contentFor env p) =
      ("PDF file exists but could not be processed: File does not appear to be a valid PDF",
       "failed", 0) := by
    rw [byteScanPhase, h3]
    simp only [Bool.false_eq_true, if_false]
  have hrun : locatedRun env p =
      ⟨basename p, (contentFor env p).length,
       "PDF file exists but could not be processed: File does not appear to be a valid PDF",
       "", "failed", 0, p, false⟩ := by
    rw [locatedRun, h2]
    simp only [Bool.false_eq_true, if_false]
    rw [hscan]
    simp only [Bool.not_false, decide_True, Bool.true_and, eq_self_iff_true, if_true]
    have hstrip : pyStrip "PDF file exists but could not be processed: File does not appear to be a valid PDF" =
        "PDF file exists but could not be processed: File does not appear to be a valid PDF" := by
      decide
    rw [hstrip]
  rw [hloc, hrun]
  exact ⟨rfl, rfl, by simp [getMeta, getField, okDoc, List.find?], rfl⟩

/-- C3, witness for the amended theorem at a concrete environment. -/
theorem c3_witness :
    getField (extract_pdf_text ⟨false, [("/x.pdf", [1, 2, 3])], [], []⟩
        (some "/x.pdf") "eng") "success" = some (JField.atom (JAtom.jb true)) ∧
    getField (extract_pdf_text ⟨false, [("/x.pdf", [1, 2, 3])], [], []⟩
        (some "/x.pdf") "eng") "error" = some (JField.atom (JAtom.js "")) ∧
    getMeta (extract_pdf_text ⟨false, [("/x.pdf", [1, 2, 3])], [], []⟩
        (some "/x.pdf") "eng") "extraction_method" = some (JAtom.js "failed") ∧
    getField (extract_pdf_text ⟨false, [("/x.pdf", [1, 2, 3])], [], []⟩
        (some "/x.pdf") "eng") "text" = some (JField.atom (JAtom.js
          "PDF file exists but could not be processed: File does not appear to be a valid PDF")) :=
  c3_invalid_pdf_yields_success_with_message ⟨false, [("/x.pdf", [1, 2, 3])], [], []⟩
    "/x.pdf" "eng" (by decide) rfl (by decide)

/-- C10: with the file located, PyPDF2 importable but its reader raising
before any page text accumulates, the byte-scan fallback runs and the
returned result pairs `success: true` with a non-empty `error` field
carrying the PyPDF2 exception message. -/
theorem c10_success_result_with_nonempty_error (env : Env) (p lang m : String)
    (h1 : osPathExists env p = true)
    (h2 : env.pypdf2Available = true)
    (h3 : readerFor env p = ⟨[], some m⟩) :
    getField (extract_pdf_text env (some p) lang) "success" =
        some (JField.atom (JAtom.jb true)) ∧
    getField (extract_pdf_text env (some p) lang) "error" =
        some (JField.atom (JAtom.js ("\n\n\n\n; PyPDF2 error: " ++ m))) ∧
    ("\n\n\n\n; PyPDF2 error: " ++ m) ≠ "" := by
  have hloc : extract_pdf_text env (some p) lang = okDoc lang (locatedRun env p) := by
    rw [extract_pdf_text, innerBody, resolvePath, if_pos h1]
  have hphase : pypdf2Phase ⟨[], some m⟩ =
      ("", "none", 0, false, "\n\n\n\n; PyPDF2 error: " ++ m) := rfl
  have hrun : locatedRun env p =
      ⟨basename p, (contentFor env p).length,
       pyStrip (byteScanPhase (contentFor env p)).1,
       "\n\n\n\n; PyPDF2 error: " ++ m,
       (byteScanPhase (contentFor env p)).2.1,
       (byteScanPhase (contentFor env p)).2.2, p, false⟩ := by
    rw [locatedRun, h2]
    simp only [eq_self_iff_true, if_true]
    rw [h3, hphase]
    simp only [Bool.not_false, decide_True, Bool.true_and, eq_self_iff_true, if_true]
  have hne : ("\n\n\n\n; PyPDF2 error: " ++ m) ≠ "" := by
    intro he
    have hl := congrArg String.length he
    rw [String.length_append] at hl
    have h20 : ("\n\n\n\n; PyPDF2 error: " : String).length = 20 := by decide
    have h0 : ("" : String).length = 0 := rfl
    rw [h20, h0] at hl
    omega
  rw [hloc, hrun]
  exact ⟨rfl, rfl, hne⟩

/-- C10, witness at a concrete environment whose reader raises. -/
theorem c10_witness :
    getField (extract_pdf_text
        ⟨true, [("/x.pdf", [1, 2, 3])], [("/x.pdf", ⟨[], some "boom"⟩)], []⟩
        (some "/x.pdf") "eng") "success" = some (JField.atom (JAtom.jb true)) ∧
    getField (extract_pdf_text
        ⟨true, [("/x.pdf", [1, 2, 3])], [("/x.pdf", ⟨[], some "boom"⟩)], []⟩
        (some "/x.pdf") "eng") "error" =
      some (JField.atom (JAtom.js ("\n\n\n\n; PyPDF2 error: " ++ "boom"))) ∧
    ("\n\n\n\n; PyPDF2 error: " ++ "boom") ≠ "" :=
  c10_success_result_with_nonempty_error
    ⟨true, [("/x.pdf", [1, 2, 3])], [("/x.pdf", ⟨[], some "boom"⟩)], []⟩
    "/x.pdf" "eng" "boom" (by decide) rfl (by decide)

theorem gate2_of_lt {t : String} (h : (pyStrip t).length < 100) : gate2 t = true := by
  rw [gate2, decide_eq_true h, Bool.or_true]

theorem gate2_false_of_ge {t : String} (h : 100 ≤ (pyStrip t).length) : gate2 t = false := by
  have ht : ¬(t = "") := by
    rintro rfl
    exact absurd h (by decide)
  rw [gate2, decide_eq_false ht, decide_eq_false (by omega : ¬(pyStrip t).length < 100)]
  rfl

theorem gate3_of_lt {t : String} (h : (pyStrip t).length < 50) : gate3 t = true := by
  rw [gate3, decide_eq_true h, Bool.or_true]

theorem gate3_false_of_ge {t : String} (h : 50 ≤ (pyStrip t).length) : gate3 t = false := by
  have ht : ¬(t = "") := by
    rintro rfl
    exact absurd h (by decide)
  rw [gate3, decide_eq_false ht, decide_eq_false (by omega : ¬(pyStrip t).length < 50)]
  rfl

theorem stage2_skip {env : SEnv} {p : String} {tm : String × String}
    (h : gate2 tm.1 = false) : stage2 env p tm = tm := by
  rw [stage2, h]
  simp

theorem cascade_attempted (env : SEnv) (p : String) :
    (cascade env p).2.2 =
      "enhanced_ocr" ::
        ((if gate2 (stage1 env p).1 then ["multilingual_pdf2text"] else []) ++
         (if gate3 (stage2 env p (stage1 env p)).1 then ["pypdf2"] else [])) := rfl

/-- C6: the standalone cascade's staged gates.  The multilingual strategy
is attempted whenever enhanced OCR raised or produced text of stripped
length < 100; the PyPDF2 fallback is attempted whenever the text held
after the multilingual stage has stripped length < 50; and a result that
reaches the preceding gate's threshold makes every later strategy be
skipped. -/
theorem c6_cascade_gating (env : SEnv) (p : String) :
    ((∀ e, ocrFor env p = Except.error e →
        "multilingual_pdf2text" ∈ (cascade env p).2.2) ∧
     ((pyStrip (stage1 env p).1).length < 100 →
        "multilingual_pdf2text" ∈ (cascade env p).2.2) ∧
     ((pyStrip (stage2 env p (stage1 env p)).1).length < 50 →
        "pypdf2" ∈ (cascade env p).2.2)) ∧
    ((100 ≤ (pyStrip (stage1 env p).1).length →
        "multilingual_pdf2text" ∉ (cascade env p).2.2 ∧
        "pypdf2" ∉ (cascade env p).2.2) ∧
     (50 ≤ (pyStrip (stage2 env p (stage1 env p)).1).length →
        "pypdf2" ∉ (cascade env p).2.2)) := by
  rw [cascade_attempted]
  refine ⟨⟨?_, ?_, ?_⟩, ?_, ?_⟩
  · intro e he
    have hs1 : stage1 env p = ("", "none") := by rw [stage1, he]
    rw [hs1]
    rw [gate2_of_lt (by decide)]
    simp
  · intro h
    rw [gate2_of_lt h]
    simp
  · intro h
    rw [gate3_of_lt h]
    simp
  · intro h
    have hg2 : gate2 (stage1 env p).1 = false := gate2_false_of_ge h
    have hs2 : stage2 env p (stage1 env p) = stage1 env p := stage2_skip hg2
    have hg3 : gate3 (stage2 env p (stage1 env p)).1 = false := by
      rw [hs2]
      exact gate3_false_of_ge (by omega)
    rw [hg2, hg3]
    simp
  · intro h
    rw [gate3_false_of_ge h]
    simp

end ChatPdf
